import Mathlib

/-!
Verification of the GODcoin-js core library: fixed-point asset arithmetic,
the versioned transaction model with its canonical binary serialization, and
the transaction-verification error taxonomy.

The transaction layer is embedded from src/tx.ts.  The collaborators that are
not part of the provided sources (asset.ts, bytebuffer.ts, serializer.ts,
crypto.ts, script.ts) are modelled from the specification document; each such
definition carries a doc comment starting with the words: Modelled from the
spec.  Bytes are natural numbers below 256, byte strings are lists, writers
produce lists and readers consume a prefix of a list, returning the remainder.
-/

namespace GODcoin

/-! ### Generic positional digits (used for base 10 rendering and the base 256
magnitude encoding of arbitrary-precision integers) -/

/-- Value of a big-endian digit list in base `b`. -/
def natOfBE (b : Nat) : List Nat → Nat
  | [] => 0
  | d :: ds => d * b ^ ds.length + natOfBE b ds

/-- Fuel-driven big-endian rendering of `n` in base `b` (canonical: no leading
zero except for the single digit of `n = 0`). -/
def renderAux (b : Nat) : Nat → Nat → List Nat
  | 0, _ => []
  | f + 1, n => if n < b then [n] else renderAux b f (n / b) ++ [n % b]

/-- Canonical big-endian digits of `n` in base `b`. -/
def renderBE (b n : Nat) : List Nat := renderAux b (n + 1) n

/-- Big-endian rendering of `n` in base `b` padded (or truncated) to exactly
`k` digits. -/
def padBE (b : Nat) : Nat → Nat → List Nat
  | 0, _ => []
  | k + 1, n => padBE b k (n / b) ++ [n % b]

/-! ### Binary encoding primitives.

Modelled from the spec: bytebuffer.ts is not under src/.  Per spec section 6
the buffer is an ordered read/write cursor over bytes with fixed-width
big-endian integers and length-prefixed blobs.  Writers return the bytes
appended; readers consume a prefix of a byte list and return the value and
the remaining bytes, failing (like a buffer under-run) on truncated input. -/

def writeUint8 (v : Nat) : List Nat := [v % 256]

def writeUint16 (v : Nat) : List Nat := [v / 256 % 256, v % 256]

def writeUint32 (v : Nat) : List Nat :=
  [v / 16777216 % 256, v / 65536 % 256, v / 256 % 256, v % 256]

def writeUint64 (v : Nat) : List Nat :=
  [v / 72057594037927936 % 256, v / 281474976710656 % 256,
   v / 1099511627776 % 256, v / 4294967296 % 256,
   v / 16777216 % 256, v / 65536 % 256, v / 256 % 256, v % 256]

def readUint8 : List Nat → Except String (Nat × List Nat)
  | [] => .error "buffer read underflow"
  | b0 :: r => .ok (b0, r)

def readUint16 : List Nat → Except String (Nat × List Nat)
  | b0 :: b1 :: r => .ok (b0 * 256 + b1, r)
  | _ => .error "buffer read underflow"

def readUint32 : List Nat → Except String (Nat × List Nat)
  | b0 :: b1 :: b2 :: b3 :: r =>
    .ok (((b0 * 256 + b1) * 256 + b2) * 256 + b3, r)
  | _ => .error "buffer read underflow"

def readUint64 : List Nat → Except String (Nat × List Nat)
  | b0 :: b1 :: b2 :: b3 :: b4 :: b5 :: b6 :: b7 :: r =>
    .ok (((((((b0 * 256 + b1) * 256 + b2) * 256 + b3) * 256 + b4) * 256 + b5)
      * 256 + b6) * 256 + b7, r)
  | _ => .error "buffer read underflow"

/-- Read exactly `n` raw bytes. -/
def readBytes : Nat → List Nat → Except String (List Nat × List Nat)
  | 0, b => .ok ([], b)
  | _ + 1, [] => .error "buffer read underflow"
  | n + 1, c :: b =>
    match readBytes n b with
    | .ok (xs, r) => .ok (c :: xs, r)
    | .error e => .error e

/-- All entries are genuine byte values. -/
def bytesOk (l : List Nat) : Bool := l.all (· < 256)

/-! ### Fixed-point asset.

Modelled from the spec: asset.ts is not under src/ (only its tests are).
Per spec sections 3 and 4.1 an Asset wraps a big.js arbitrary-precision
decimal `amount` holding the value scaled by 10^PRECISION (PRECISION = 5),
with the decimal library configured to 5 decimal places and round-down
(truncation toward zero) — so every reachable amount is an integral multiple
of 10^-5 minor units.  The decimal is therefore represented exactly by the
integer `amount` counting steps of 10^-5 minor units (the big.js amount
multiplied by 10^5; a parsed asset of `m` minor units has
`amount = m * 100000`).  The repository tests (the jest blocks embedded in
package.json) fix the observable behaviour the model reproduces, including
the compounding truncation visible in pow. -/

structure Asset where
  amount : Int
deriving DecidableEq

/-- The minor units of an asset as displayed: the big.js amount truncated
toward zero to an integer (big.js round mode 0, the configured RM). -/
def Asset.displayMinor (a : Asset) : Int := Int.tdiv a.amount 100000

/-- Modelled from the spec: exact addition on minor units. -/
def Asset.add (a b : Asset) : Asset := ⟨a.amount + b.amount⟩

/-- Modelled from the spec: exact subtraction on minor units. -/
def Asset.sub (a b : Asset) : Asset := ⟨a.amount - b.amount⟩

/-- Modelled from the spec: multiplication; the exact product of the two
decimals, truncated toward zero at 5 decimal places of the minor-unit
amount (the configured big.js DP/RM).  In the scaled representation the
product of minor units sits at scale 10^20, so truncating at scale 10^10
keeps exactly 5 decimal places of the minor-unit result. -/
def Asset.mul (a b : Asset) : Asset :=
  ⟨Int.tdiv (a.amount * b.amount) 10000000000⟩

/-- Modelled from the spec: division, truncated toward zero at 5 decimal
places of the minor-unit quotient; divisor zero is a synchronous error. -/
def Asset.div (a b : Asset) : Except String Asset :=
  if b.amount = 0 then .error ("divide by zero")
  else .ok ⟨Int.tdiv (a.amount * 10000000000) b.amount⟩

/-- A JavaScript value passed as an exponent: a number (finite JS numbers are
rationals) or anything that is not a number. -/
inductive JsVal
  | num (q : ℚ)
  | notNum
deriving DecidableEq

/-- The unit asset 1.00000 GRAEL (minor units 10^5), start of the pow loop. -/
def Asset.one : Asset := ⟨10000000000⟩

/-- Modelled from the spec: the pow loop is repeated multiplication (each step
truncating like `Asset.mul`); tail recursion mirrors the source loop.  The
spec defines pow only for non-negative integer exponents; the loop consumes
the absolute value of a (checked) integer exponent. -/
def Asset.powLoop (a : Asset) : Nat → Asset → Asset
  | 0, acc => acc
  | n + 1, acc => Asset.powLoop a n (acc.mul a)

/-- Modelled from the spec: pow type-checks its exponent (a TypeError with the
stated message for a non-number or a fractional number) and then repeatedly
multiplies. -/
def Asset.pow (a : Asset) : JsVal → Except String Asset
  | .notNum => .error ("input must be of type number")
  | .num q =>
    if q.den ≠ 1 then .error ("input must be an integer")
    else .ok (Asset.powLoop a q.num.natAbs Asset.one)

/-! #### Parsing and formatting (modelled from spec section 4.1, grammar
`["-"] digits* ["." digits*] " " "GRAEL"` and the ordered checks 1-6). -/

def charVal (c : Char) : Option Nat :=
  if c = '0' then some 0
  else if c = '1' then some 1
  else if c = '2' then some 2
  else if c = '3' then some 3
  else if c = '4' then some 4
  else if c = '5' then some 5
  else if c = '6' then some 6
  else if c = '7' then some 7
  else if c = '8' then some 8
  else if c = '9' then some 9
  else none

def digitChar : Nat → Char
  | 0 => '0'
  | 1 => '1'
  | 2 => '2'
  | 3 => '3'
  | 4 => '4'
  | 5 => '5'
  | 6 => '6'
  | 7 => '7'
  | 8 => '8'
  | 9 => '9'
  | _ => '*'

def isDigitChar (c : Char) : Bool := (charVal c).isSome

/-- Longest digit prefix and the remaining characters. -/
def takeDigits : List Char → List Char × List Char
  | [] => ([], [])
  | c :: r =>
    if isDigitChar c then
      let p := takeDigits r
      (c :: p.1, p.2)
    else ([], c :: r)

/-- The shape of a syntactically valid signed numeral: optional minus sign,
integer digits, optional dot followed by fraction digits. -/
structure NumParts where
  neg : Bool
  intPart : List Char
  fracPart : Option (List Char)
deriving DecidableEq

/-- The unsigned part of the numeral grammar: integer digits, optionally a
dot and fraction digits, nothing else, at least one digit overall. -/
def parseBody (neg : Bool) (body : List Char) : Option NumParts :=
  match takeDigits body with
  | (ip, rest1) =>
    match rest1 with
    | [] => if ip.isEmpty then none else some ⟨neg, ip, none⟩
    | c2 :: r2 =>
      if c2 = '.' then
        match takeDigits r2 with
        | (fp, rest2) =>
          match rest2 with
          | [] =>
            if ip.isEmpty && fp.isEmpty then none
            else some ⟨neg, ip, some fp⟩
          | _ => none
      else none

/-- Modelled from the spec: the decimal parser accepting
`["-"] digits* ["." digits*]` with at least one digit overall. -/
def parseNumeral (l : List Char) : Option NumParts :=
  match l with
  | '-' :: r => parseBody true r
  | _ => parseBody false l

def digitVals (l : List Char) : List Nat := l.map (fun c => (charVal c).getD 0)

/-- Significant digits of a numeral: all digits with leading and trailing
zeros stripped (the big.js coefficient length). -/
def sigDigitCount (p : NumParts) : Nat :=
  ((((digitVals (p.intPart ++ p.fracPart.getD [])).dropWhile
    (· = 0)).reverse.dropWhile (· = 0)).reverse).length

def assetSymbol : List Char := ['G', 'R', 'A', 'E', 'L']

/-- Split on every space character (JavaScript String.split with a single
space separator). -/
def splitOnSpace : List Char → List (List Char)
  | [] => [[]]
  | c :: r =>
    if c = ' ' then [] :: splitOnSpace r
    else
      match splitOnSpace r with
      | [] => [[c]]
      | t :: ts => (c :: t) :: ts

/-- Modelled from the spec: Asset.fromString with the ordered checks of spec
section 4.1 — token split, numeral validity, the 21-significant-digit
ceiling (firing before the decimal-point and precision checks), mandatory
decimal point, exactly PRECISION fraction digits, exact symbol — and exact
conversion to minor units. -/
def Asset.fromString (s : List Char) : Except String Asset :=
  match splitOnSpace s with
  | [amt, sym] =>
    match parseNumeral amt with
    | none => .error ("amount must be a valid number")
    | some p =>
      if 20 < sigDigitCount p then .error ("input too large")
      else
        match p.fracPart with
        | none => .error ("invalid format")
        | some F =>
          if F.length ≠ 5 then .error ("invalid precision")
          else if sym ≠ assetSymbol then .error ("asset type must be GRAEL")
          else
            let v : Int := natOfBE 10 (digitVals (p.intPart ++ F))
            .ok ⟨(if p.neg then -v else v) * 100000⟩
  | _ => .error ("invalid format")

def renderNat10 (n : Nat) : List Char := (renderBE 10 n).map digitChar

def pad5Nat (n : Nat) : List Char := (padBE 10 5 n).map digitChar

/-- Modelled from the spec: Asset.toString — the amount truncated toward zero
to integral minor units, rendered as a signed decimal with exactly 5
fraction digits, a leading 0 for magnitudes under one unit, no sign on zero,
and the symbol suffix when requested. -/
def Asset.toString (a : Asset) (includeSymbol : Bool) : List Char :=
  let m : Int := a.displayMinor
  let n : Nat := m.natAbs
  (if m < 0 then ['-'] else []) ++ renderNat10 (n / 100000) ++
    '.' :: pad5Nat (n % 100000) ++
    (if includeSymbol then ' ' :: assetSymbol else [])

/-! ### Type serializer primitives.

Modelled from the spec: serializer.ts, crypto.ts and script.ts are not under
src/.  Spec section 6 fixes the wire shapes: fixed-length raw digests and
public keys (32 bytes, the external scheme), signature pairs as public key
bytes followed by signature bytes (64 bytes, the external scheme),
length-prefixed blobs and text, and an arbitrary-precision signed-integer
encoding of an asset's minor units (here: a sign byte, a 4-byte magnitude
length and the canonical base-256 big-endian magnitude). -/

/-- A (public key, signature) pair as produced by the external signer. -/
structure SigPair where
  publicKey : List Nat
  signature : List Nat
deriving DecidableEq

def serDigest (d : List Nat) : List Nat := d

def readDigest : List Nat → Except String (List Nat × List Nat) := readBytes 32

def serPublicKey (k : List Nat) : List Nat := k

def readPublicKey : List Nat → Except String (List Nat × List Nat) :=
  readBytes 32

def serSigPair (s : SigPair) : List Nat :=
  serPublicKey s.publicKey ++ s.signature

def readSigPair (b : List Nat) : Except String (SigPair × List Nat) := do
  let (pk, b) ← readPublicKey b
  let (sg, b) ← readBytes 64 b
  .ok (⟨pk, sg⟩, b)

def serBuffer (x : List Nat) : List Nat := writeUint32 x.length ++ x

def readBuffer (b : List Nat) : Except String (List Nat × List Nat) := do
  let (n, b) ← readUint32 b
  readBytes n b

/-- Canonical base-256 big-endian magnitude: empty for zero, otherwise no
leading zero byte. -/
def assetMag (n : Nat) : List Nat := if n = 0 then [] else renderBE 256 n

def serAsset (a : Asset) : List Nat :=
  writeUint8 (if a.displayMinor < 0 then 1 else 0) ++
    writeUint32 (assetMag a.displayMinor.natAbs).length ++
    assetMag a.displayMinor.natAbs

def readAsset (b : List Nat) : Except String (Asset × List Nat) := do
  let (s, b) ← readUint8 b
  if 1 < s then .error ("invalid asset sign")
  else
    let (len, b) ← readUint32 b
    let (mag, b) ← readBytes len b
    match mag with
    | [] =>
      if s = 1 then .error ("invalid asset encoding") else .ok (⟨0⟩, b)
    | d :: _ =>
      if d = 0 then .error ("invalid asset encoding")
      else
        let v : Int := natOfBE 256 mag
        .ok (⟨(if s = 1 then -v else v) * 100000⟩, b)

/-! ### The transaction model (embedded from src/tx.ts). -/

/-- Modelled from the spec: a long.js 64-bit integer as used for timestamps —
a bit pattern together with its signedness flag. -/
structure Long where
  bits : Nat
  unsigned : Bool
deriving DecidableEq

/-- The shared transaction header data (tx.ts, interface TxData). -/
structure TxData where
  timestamp : Long
  fee : Asset
  signaturePairs : List SigPair
deriving DecidableEq

/-- The per-variant payloads (tx.ts: OwnerTxData, MintTxData, RewardTxData,
TransferTxData; script hashes, public keys and scripts are byte lists of the
external fixed shapes). -/
inductive TxPayload
  | owner (minter : List Nat) (wallet : List Nat) (script : List Nat)
  | mint (toAddr : List Nat) (amount : Asset) (attachment : List Nat)
      (attachmentName : List Nat) (script : List Nat)
  | reward (toAddr : List Nat) (rewards : Asset)
  | transfer (fromAddr : List Nat) (toAddr : List Nat) (script : List Nat)
      (amount : Asset) (memo : List Nat)
deriving DecidableEq

/-- The transaction type tag byte (tx.ts, enum TxType). -/
def TxPayload.typeByte : TxPayload → Nat
  | .owner _ _ _ => 0
  | .mint _ _ _ _ _ => 1
  | .reward _ _ => 2
  | .transfer _ _ _ _ _ => 3

/-- A version-0 transaction (tx.ts, abstract class TxV0 and its subclasses,
collapsed to header data plus payload). -/
structure TxV0 where
  timestamp : Long
  fee : Asset
  signaturePairs : List SigPair
  payload : TxPayload
deriving DecidableEq

/-- The TxV0 constructor (tx.ts lines 85-93): rejects a timestamp whose Long
is not flagged unsigned, otherwise stores the header data. -/
def TxV0.create (data : TxData) (payload : TxPayload) : Except String TxV0 :=
  if !data.timestamp.unsigned then
    .error ("timestamp must be an unsigned long")
  else
    .ok ⟨data.timestamp, data.fee, data.signaturePairs, payload⟩

/-- tx.ts TxV0.serializeHeader: type byte, 8-byte timestamp, fee. -/
def TxV0.serializeHeader (t : TxV0) : List Nat :=
  writeUint8 t.payload.typeByte ++ writeUint64 t.timestamp.bits ++
    serAsset t.fee

/-- tx.ts serializeData of the concrete variant classes. -/
def TxPayload.serializeData : TxPayload → List Nat
  | .owner minter wallet script =>
    serPublicKey minter ++ serDigest wallet ++ serBuffer script
  | .mint toAddr amount attachment attachmentName script =>
    serDigest toAddr ++ serAsset amount ++ serBuffer attachment ++
      serBuffer attachmentName ++ serBuffer script
  | .reward toAddr rewards => serDigest toAddr ++ serAsset rewards
  | .transfer fromAddr toAddr script amount memo =>
    serDigest fromAddr ++ serDigest toAddr ++ serBuffer script ++
      serAsset amount ++ serBuffer memo

/-- tx.ts TxV0.serialize: header, payload, and (only when signatures are
included) the 1-byte signature count followed by the pairs. -/
def TxV0.serialize (t : TxV0) (includeSigs : Bool) : List Nat :=
  t.serializeHeader ++ t.payload.serializeData ++
    (if includeSigs then
      writeUint8 t.signaturePairs.length ++
        (t.signaturePairs.map serSigPair).flatten
    else [])

/-- tx.ts TxVariant.serialize: 2-byte version tag 0x00 then the body. -/
def TxVariant.serialize (t : TxV0) (includeSigs : Bool) : List Nat :=
  writeUint16 0 ++ t.serialize includeSigs

/-- tx.ts TxV0.deserializeHeader: type byte (rejecting tags outside the
enum), timestamp and fee.  The rejection of a timestamp with its sign bit
set is modelled from the spec (section 4.2; it lives in the external byte
buffer and long.js handling, which are not under src/): such input is a
fatal decode error. -/
def TxV0.deserializeHeader (b : List Nat) :
    Except String ((Nat × TxData) × List Nat) := do
  let (ty, b) ← readUint8 b
  if 3 < ty then .error ("unknown tx type deserializing header")
  else
    let (ts, b) ← readUint64 b
    if 9223372036854775808 ≤ ts then .error ("timestamp sign bit set")
    else
      let (fee, b) ← readAsset b
      .ok ((ty, ⟨⟨ts, true⟩, fee, []⟩), b)

/-- tx.ts deserializeData of the concrete variant classes, dispatched on the
type byte. -/
def readPayload : Nat → List Nat → Except String (TxPayload × List Nat)
  | 0, b => do
    let (minter, b) ← readPublicKey b
    let (wallet, b) ← readDigest b
    let (script, b) ← readBuffer b
    .ok (.owner minter wallet script, b)
  | 1, b => do
    let (toAddr, b) ← readDigest b
    let (amount, b) ← readAsset b
    let (attachment, b) ← readBuffer b
    let (attachmentName, b) ← readBuffer b
    let (script, b) ← readBuffer b
    .ok (.mint toAddr amount attachment attachmentName script, b)
  | 2, b => do
    let (toAddr, b) ← readDigest b
    let (rewards, b) ← readAsset b
    .ok (.reward toAddr rewards, b)
  | 3, b => do
    let (fromAddr, b) ← readDigest b
    let (toAddr, b) ← readDigest b
    let (script, b) ← readBuffer b
    let (amount, b) ← readAsset b
    let (memo, b) ← readBuffer b
    .ok (.transfer fromAddr toAddr script amount memo, b)
  | _, _ => .error ("unknown tx type deserializing header")

/-- tx.ts TxV0.deserializeSigs: 1-byte count then that many pairs. -/
def readSigList : Nat → List Nat → Except String (List SigPair × List Nat)
  | 0, b => .ok ([], b)
  | n + 1, b => do
    let (s, b) ← readSigPair b
    let (ss, b) ← readSigList n b
    .ok (s :: ss, b)

/-- tx.ts TxV0.deserialize: header, payload by type tag, signature list,
then the variant constructor. -/
def TxV0.deserialize (b : List Nat) : Except String (TxV0 × List Nat) := do
  let ((ty, data), b) ← TxV0.deserializeHeader b
  let (payload, b) ← readPayload ty b
  let (count, b) ← readUint8 b
  let (sigs, b) ← readSigList count b
  let t ← TxV0.create ⟨data.timestamp, data.fee, sigs⟩ payload
  .ok (t, b)

/-- tx.ts TxVariant.deserialize: 2-byte version tag dispatch; an unrecognized
version tag is a fatal decode error. -/
def TxVariant.deserialize (b : List Nat) : Except String (TxV0 × List Nat) := do
  let (ver, b) ← readUint16 b
  if ver = 0 then TxV0.deserialize b
  else .error ("unknown tx version")

/-- tx.ts TxVariant.sign: serialize the unsigned form into a fresh buffer,
sign those bytes with the external signer, append the pair to the signature
list unless told not to, and return the pair. -/
def TxVariant.sign (signFn : List Nat → SigPair) (t : TxV0)
    (append : Bool) : SigPair × TxV0 :=
  let buf := TxVariant.serialize t false
  let sig := signFn buf
  (sig,
    if append then
      ⟨t.timestamp, t.fee, t.signaturePairs ++ [sig], t.payload⟩
    else t)

/-! ### Well-formedness of in-memory values with respect to the external
fixed shapes (the TypeScript types enforce these statically: Uint8Array
entries are bytes, digests and keys have their fixed lengths, buffer
lengths fit the 4-byte length prefix). -/

def digestOk (d : List Nat) : Bool := d.length == 32 && bytesOk d

def bufferOk (x : List Nat) : Bool :=
  bytesOk x && decide (x.length < 4294967296)

def sigPairOk (s : SigPair) : Bool :=
  s.publicKey.length == 32 && bytesOk s.publicKey &&
    s.signature.length == 64 && bytesOk s.signature

/-- A serializable asset: integral minor units (the spec's invariant) whose
magnitude fits the length prefix. -/
def assetOk (a : Asset) : Bool :=
  a.amount % 100000 == 0 &&
    decide ((assetMag a.displayMinor.natAbs).length < 4294967296)

def TxPayload.ok : TxPayload → Bool
  | .owner minter wallet script =>
    digestOk minter && digestOk wallet && bufferOk script
  | .mint toAddr amount attachment attachmentName script =>
    digestOk toAddr && assetOk amount && bufferOk attachment &&
      bufferOk attachmentName && bufferOk script
  | .reward toAddr rewards => digestOk toAddr && assetOk rewards
  | .transfer fromAddr toAddr script amount memo =>
    digestOk fromAddr && digestOk toAddr && bufferOk script &&
      assetOk amount && bufferOk memo

/-- A well-formed version-0 transaction as the claims quantify over it: an
unsigned 64-bit timestamp, serializable fee and payload fields, and between
0 and 8 signature pairs of the external shape. -/
def TxV0.ok (t : TxV0) : Bool :=
  decide (t.timestamp.bits < 18446744073709551616) && t.timestamp.unsigned &&
    assetOk t.fee && t.payload.ok &&
    decide (t.signaturePairs.length ≤ 8) && t.signaturePairs.all sigPairOk

/-! ### The verification error taxonomy (embedded from src/tx.ts). -/

/-- tx.ts, enum TxVerifyErrorKind (11 kinds, bytes 0x00 to 0x0a). -/
inductive TxVerifyErrorKind
  | scriptEval
  | scriptHashMismatch
  | scriptRetFalse
  | arithmetic
  | insufficientBalance
  | invalidFeeAmount
  | tooManySignatures
  | txTooLarge
  | txProhibited
  | txExpired
  | txDupe
deriving DecidableEq

def TxVerifyErrorKind.toByte : TxVerifyErrorKind → Nat
  | .scriptEval => 0
  | .scriptHashMismatch => 1
  | .scriptRetFalse => 2
  | .arithmetic => 3
  | .insufficientBalance => 4
  | .invalidFeeAmount => 5
  | .tooManySignatures => 6
  | .txTooLarge => 7
  | .txProhibited => 8
  | .txExpired => 9
  | .txDupe => 10

/-- The enum membership test of tx.ts deserialize (`kind in TxVerifyErrorKind`). -/
def TxVerifyErrorKind.ofByte : Nat → Option TxVerifyErrorKind
  | 0 => some .scriptEval
  | 1 => some .scriptHashMismatch
  | 2 => some .scriptRetFalse
  | 3 => some .arithmetic
  | 4 => some .insufficientBalance
  | 5 => some .invalidFeeAmount
  | 6 => some .tooManySignatures
  | 7 => some .txTooLarge
  | 8 => some .txProhibited
  | 9 => some .txExpired
  | 10 => some .txDupe
  | _ => none

/-- Modelled from the spec: the script-evaluation error of the external
script engine (script.ts is not under src/) — a byte offset into the script
and a 1-byte error kind. -/
structure ScriptEvalError where
  kind : Nat
  position : Nat
deriving DecidableEq

/-- The fixed message of each non-ScriptEval kind (tx.ts constructor). -/
def TxVerifyErrorKind.fixedMessage : TxVerifyErrorKind → List Char
  | .scriptEval => []
  | .scriptHashMismatch => ("script hash mismatch").data
  | .scriptRetFalse => ("script returned false").data
  | .arithmetic => ("arithmetic error").data
  | .insufficientBalance => ("insufficient balance").data
  | .invalidFeeAmount => ("invalid fee amount").data
  | .tooManySignatures => ("too many signatures").data
  | .txTooLarge => ("tx too large").data
  | .txProhibited => ("tx prohibited").data
  | .txExpired => ("tx expired").data
  | .txDupe => ("tx dupe").data

/-- A constructed TxVerifyError value: its kind, the stored ScriptEval
payload (only ever set for ScriptEval) and the message assigned by the
constructor. -/
structure TxVerifyError where
  kind : TxVerifyErrorKind
  meta : Option ScriptEvalError
  message : List Char
deriving DecidableEq

/-- The TxVerifyError constructor (tx.ts lines 351-396).  `sevMsg` models the
message of the external ScriptEvalError, derived from its kind.  For
ScriptEval a ScriptEvalError payload is required (else the constructor
throws) and stored; every other kind assigns its fixed message and does not
store any payload. -/
def TxVerifyError.construct (sevMsg : Nat → List Char)
    (kind : TxVerifyErrorKind) (meta : Option ScriptEvalError) :
    Except String TxVerifyError :=
  match kind, meta with
  | .scriptEval, some m =>
    .ok ⟨.scriptEval, some m, ("script eval: ").data ++ sevMsg m.kind⟩
  | .scriptEval, none => .error ("invalid error type for ScriptEvalError")
  | k, _ => .ok ⟨k, none, k.fixedMessage⟩

/-- tx.ts TxVerifyError.serialize: the kind byte, then (only for ScriptEval)
the 4-byte position and 1-byte nested kind of the stored payload. -/
def TxVerifyError.serialize (e : TxVerifyError) : List Nat :=
  writeUint8 e.kind.toByte ++
    (match e.kind, e.meta with
      | .scriptEval, some m => writeUint32 m.position ++ writeUint8 m.kind
      | _, _ => [])

/-- tx.ts TxVerifyError.deserialize: reject an unrecognized kind byte, read
the ScriptEval payload when the kind requires one (rejecting an unrecognized
nested kind — `sevValid` models the external ScriptEvalErrorKind enum
membership test), and construct the error. -/
def TxVerifyError.deserialize (sevValid : Nat → Bool)
    (sevMsg : Nat → List Char) (b : List Nat) :
    Except String (TxVerifyError × List Nat) := do
  let (k, b) ← readUint8 b
  match TxVerifyErrorKind.ofByte k with
  | none => .error ("invalid tx error kind")
  | some kind =>
    if kind = .scriptEval then do
      let (pos, b) ← readUint32 b
      let (ek, b) ← readUint8 b
      if !sevValid ek then .error ("invalid script eval error kind")
      else do
        let e ← TxVerifyError.construct sevMsg kind (some ⟨ek, pos⟩)
        .ok (e, b)
    else do
      let e ← TxVerifyError.construct sevMsg kind none
      .ok (e, b)

/-- Well-formedness of a constructed verify error relative to the external
script-error enum: the ScriptEval payload is present exactly for ScriptEval,
with a valid nested kind byte and a 32-bit offset. -/
def TxVerifyError.okFor (sevValid : Nat → Bool) (e : TxVerifyError) : Prop :=
  match e.kind, e.meta with
  | .scriptEval, some m =>
    sevValid m.kind = true ∧ m.kind < 256 ∧ m.position < 4294967296
  | .scriptEval, none => False
  | _, meta => meta = none

/-! ### The normalization of a valid formatted amount (stated from the spec,
section 8: leading zero added, redundant minus on zero dropped; amended with
the removal of redundant leading zeros, which formatting cannot keep). -/

def normalizeAmount (p : NumParts) : List Char :=
  let F := p.fracPart.getD []
  let ip := p.intPart.dropWhile (· = '0')
  let ipz : List Char := if ip.isEmpty then ['0'] else ip
  let zero := (digitVals (p.intPart ++ F)).all (· = 0)
  (if p.neg && !zero then ['-'] else []) ++ ipz ++ '.' :: F

def normalizeAsset (s : List Char) : List Char :=
  match splitOnSpace s with
  | [amt, _] =>
    match parseNumeral amt with
    | some p => normalizeAmount p ++ ' ' :: assetSymbol
    | none => s
  | _ => s

/-! ### Helper lemmas -/

theorem natOfBE_append (b : Nat) (xs ys : List Nat) :
    natOfBE b (xs ++ ys) = natOfBE b xs * b ^ ys.length + natOfBE b ys := by
  induction xs with
  | nil => simp [natOfBE]
  | cons d ds ih =>
    simp only [List.cons_append, natOfBE, List.length_append, List.append_eq]
    rw [ih]
    ring

theorem natOfBE_concat (b : Nat) (xs : List Nat) (d : Nat) :
    natOfBE b (xs ++ [d]) = natOfBE b xs * b + d := by
  rw [natOfBE_append]
  simp [natOfBE]

theorem natOfBE_lt (b : Nat) (ds : List Nat) (h : ∀ d ∈ ds, d < b) :
    natOfBE b ds < b ^ ds.length := by
  induction ds with
  | nil => simp [natOfBE]
  | cons d ds ih =>
    have hd : d < b := h d (by simp)
    have hb : 0 < b := by omega
    have hds := ih (fun x hx => h x (by simp [hx]))
    simp only [natOfBE, List.length_cons]
    calc d * b ^ ds.length + natOfBE b ds
        < d * b ^ ds.length + b ^ ds.length := by omega
      _ = (d + 1) * b ^ ds.length := by ring
      _ ≤ b * b ^ ds.length := mul_le_mul_right' (by omega) _
      _ = b ^ (ds.length + 1) := by rw [pow_succ]; ring

theorem natOfBE_pos (b : Nat) (hb : 0 < b) (d : Nat) (ds : List Nat) (hd : 0 < d) :
    0 < natOfBE b (d :: ds) := by
  simp only [natOfBE]
  have h1 : 0 < b ^ ds.length := pow_pos hb _
  have h2 : 0 < d * b ^ ds.length := Nat.mul_pos hd h1
  omega

theorem natOfBE_eq_zero_iff (b : Nat) (hb : 0 < b) (ds : List Nat) :
    natOfBE b ds = 0 ↔ ∀ d ∈ ds, d = 0 := by
  induction ds with
  | nil => simp [natOfBE]
  | cons d ds ih =>
    simp only [natOfBE, List.mem_cons]
    constructor
    · intro h
      have hpow : 0 < b ^ ds.length := pow_pos hb _
      have hd : d = 0 := by
        by_contra hne
        have : 0 < d * b ^ ds.length := Nat.mul_pos (Nat.pos_of_ne_zero hne) hpow
        omega
      have hds : natOfBE b ds = 0 := by omega
      intro x hx
      rcases hx with hx | hx
      · exact hx ▸ hd
      · exact (ih.mp hds) x hx
    · intro h
      have hd : d = 0 := h d (Or.inl rfl)
      have hz : natOfBE b ds = 0 := ih.mpr (fun x hx => h x (Or.inr hx))
      simp [hd, hz]

theorem natOfBE_dropWhile_zero (b : Nat) (ds : List Nat) :
    natOfBE b (ds.dropWhile (· = 0)) = natOfBE b ds := by
  induction ds with
  | nil => rfl
  | cons d ds ih =>
    by_cases hd : d = 0
    · subst hd
      simp [List.dropWhile_cons, natOfBE, ih]
    · simp [List.dropWhile_cons, hd]

theorem renderAux_fuel (b : Nat) (hb : 2 ≤ b) :
    ∀ f fB n, n < f → n < fB → renderAux b f n = renderAux b fB n := by
  intro f
  induction f with
  | zero => intro fB n h; omega
  | succ g ih =>
    intro fB n hf hfB
    cases fB with
    | zero => omega
    | succ gB =>
      simp only [renderAux]
      by_cases hn : n < b
      · simp [hn]
      · simp only [hn, if_false]
        have hdiv : n / b < n := Nat.div_lt_self (by omega) (by omega)
        rw [ih gB (n / b) (by omega) (by omega)]

theorem renderBE_step (b : Nat) (hb : 2 ≤ b) (n : Nat) (hn : b ≤ n) :
    renderBE b n = renderBE b (n / b) ++ [n % b] := by
  have hdiv : n / b < n := Nat.div_lt_self (by omega) (by omega)
  have h1 : renderBE b n = renderAux b n (n / b) ++ [n % b] := by
    unfold renderBE
    simp only [renderAux]
    have hnb : ¬ n < b := by omega
    simp [hnb]
  rw [h1]
  congr 1
  exact renderAux_fuel b hb n (n / b + 1) (n / b) (by omega) (by omega)

theorem renderBE_small (b n : Nat) (hn : n < b) : renderBE b n = [n] := by
  unfold renderBE
  simp [renderAux, hn]

theorem natOfBE_renderBE (b : Nat) (hb : 2 ≤ b) (n : Nat) :
    natOfBE b (renderBE b n) = n := by
  induction n using Nat.strong_induction_on with
  | _ n ih =>
    by_cases hn : n < b
    · rw [renderBE_small b n hn]
      simp [natOfBE]
    · rw [renderBE_step b hb n (by omega)]
      rw [natOfBE_concat]
      have hdiv : n / b < n := Nat.div_lt_self (by omega) (by omega)
      rw [ih (n / b) hdiv, Nat.mul_comm]
      exact Nat.div_add_mod n b

theorem renderBE_digits_lt (b : Nat) (hb : 2 ≤ b) (n : Nat) :
    ∀ d ∈ renderBE b n, d < b := by
  induction n using Nat.strong_induction_on with
  | _ n ih =>
    by_cases hn : n < b
    · rw [renderBE_small b n hn]
      simpa using hn
    · rw [renderBE_step b hb n (by omega)]
      intro d hd
      rcases List.mem_append.mp hd with h | h
      · exact ih (n / b) (Nat.div_lt_self (by omega) (by omega)) d h
      · simp only [List.mem_singleton] at h
        subst h
        exact Nat.mod_lt _ (by omega)

theorem renderBE_head_pos (b : Nat) (hb : 2 ≤ b) (n : Nat) (hn : 0 < n) :
    ∃ d ds, renderBE b n = d :: ds ∧ 0 < d := by
  induction n using Nat.strong_induction_on with
  | _ n ih =>
    by_cases hsmall : n < b
    · exact ⟨n, [], renderBE_small b n hsmall, hn⟩
    · have hdivpos : 0 < n / b := Nat.div_pos (by omega) (by omega)
      obtain ⟨d, ds, heq, hd⟩ :=
        ih (n / b) (Nat.div_lt_self (by omega) (by omega)) hdivpos
      refine ⟨d, ds ++ [n % b], ?_, hd⟩
      rw [renderBE_step b hb n (by omega), heq]
      simp

theorem div_mod_mul_add (b M d : Nat) (hb : 0 < b) (hd : d < b) :
    (M * b + d) / b = M ∧ (M * b + d) % b = d := by
  constructor
  · rw [Nat.add_comm, Nat.add_mul_div_right d M hb, Nat.div_eq_of_lt hd]
    omega
  · rw [Nat.add_comm, Nat.add_mul_mod_self_right, Nat.mod_eq_of_lt hd]

theorem renderBE_natOfBE (b : Nat) (hb : 2 ≤ b) (d0 : Nat) (tl : List Nat)
    (hd0 : 0 < d0) :
    (∀ d ∈ d0 :: tl, d < b) → renderBE b (natOfBE b (d0 :: tl)) = d0 :: tl := by
  induction tl using List.reverseRecOn with
  | nil =>
    intro hlt
    have hd : d0 < b := hlt d0 (by simp)
    have hval : natOfBE b [d0] = d0 := by simp [natOfBE]
    rw [hval, renderBE_small b d0 hd]
  | append_singleton T d ih =>
    intro hlt
    have hcons : d0 :: (T ++ [d]) = (d0 :: T) ++ [d] := by simp
    rw [hcons, natOfBE_concat]
    have hM : 0 < natOfBE b (d0 :: T) := natOfBE_pos b (by omega) d0 T hd0
    have hdlt : d < b := hlt d (by simp)
    have hge : b ≤ natOfBE b (d0 :: T) * b + d := by
      have h1 : 1 * b ≤ natOfBE b (d0 :: T) * b := mul_le_mul_right' hM b
      omega
    rw [renderBE_step b hb _ hge]
    obtain ⟨hdiv2, hmod2⟩ :=
      div_mod_mul_add b (natOfBE b (d0 :: T)) d (by omega) hdlt
    rw [hdiv2, hmod2]
    rw [ih (fun x hx => hlt x (by
      simp only [List.mem_cons, List.mem_append] at hx ⊢
      tauto))]

theorem padBE_natOfBE (b : Nat) (hb : 2 ≤ b) (ds : List Nat) :
    (∀ d ∈ ds, d < b) → padBE b ds.length (natOfBE b ds) = ds := by
  induction ds using List.reverseRecOn with
  | nil => intro _; rfl
  | append_singleton T d ih =>
    intro hlt
    rw [natOfBE_concat]
    have hdlt : d < b := hlt d (by simp)
    have hlen : (T ++ [d]).length = T.length + 1 := by simp
    rw [hlen]
    simp only [padBE]
    obtain ⟨hdiv2, hmod2⟩ := div_mod_mul_add b (natOfBE b T) d (by omega) hdlt
    rw [hdiv2, hmod2]
    rw [ih (fun x hx => hlt x (by
      simp only [List.mem_append] at hx ⊢
      tauto))]

theorem bytesOk_append (x y : List Nat) :
    bytesOk (x ++ y) = (bytesOk x && bytesOk y) := by
  simp [bytesOk, List.all_append]

theorem bytesOk_cons (c : Nat) (x : List Nat) :
    bytesOk (c :: x) = (decide (c < 256) && bytesOk x) := by
  simp [bytesOk]

/-! Round-trip lemmas: reading back what a writer produced. -/

theorem readUint8_write (v : Nat) (hv : v < 256) (r : List Nat) :
    readUint8 (writeUint8 v ++ r) = .ok (v, r) := by
  simp only [writeUint8, List.cons_append, List.nil_append, readUint8]
  congr 2
  omega

theorem readUint16_write (v : Nat) (hv : v < 65536) (r : List Nat) :
    readUint16 (writeUint16 v ++ r) = .ok (v, r) := by
  simp only [writeUint16, List.cons_append, List.nil_append, readUint16]
  congr 2
  omega

theorem readUint32_write (v : Nat) (hv : v < 4294967296) (r : List Nat) :
    readUint32 (writeUint32 v ++ r) = .ok (v, r) := by
  simp only [writeUint32, List.cons_append, List.nil_append, readUint32]
  congr 2
  omega

theorem readUint64_write (v : Nat) (hv : v < 18446744073709551616) (r : List Nat) :
    readUint64 (writeUint64 v ++ r) = .ok (v, r) := by
  simp only [writeUint64, List.cons_append, List.nil_append, readUint64]
  congr 2
  omega

theorem readBytes_write (xs : List Nat) (r : List Nat) :
    readBytes xs.length (xs ++ r) = .ok (xs, r) := by
  induction xs with
  | nil => rfl
  | cons c tl ih =>
    simp only [List.length_cons, List.cons_append, readBytes, List.append_eq]
    rw [ih]

/-! Inversion lemmas: a successful read determines the consumed bytes. -/

theorem readUint8_inv (b : List Nat) (v : Nat) (r : List Nat)
    (hok : bytesOk b = true) (h : readUint8 b = .ok (v, r)) :
    b = writeUint8 v ++ r ∧ v < 256 := by
  match b, h with
  | b0 :: rb, h =>
    simp only [readUint8, Except.ok.injEq, Prod.mk.injEq] at h
    obtain ⟨hv, hr⟩ := h
    rw [bytesOk_cons] at hok
    simp only [Bool.and_eq_true, decide_eq_true_eq] at hok
    subst hv hr
    refine ⟨?_, hok.1⟩
    simp only [writeUint8, List.cons_append, List.nil_append]
    congr 1
    omega

theorem readUint16_inv (b : List Nat) (v : Nat) (r : List Nat)
    (hok : bytesOk b = true) (h : readUint16 b = .ok (v, r)) :
    b = writeUint16 v ++ r ∧ v < 65536 := by
  match b, h with
  | b0 :: b1 :: rb, h =>
    simp only [readUint16, Except.ok.injEq, Prod.mk.injEq] at h
    obtain ⟨hv, hr⟩ := h
    simp only [bytesOk_cons, Bool.and_eq_true, decide_eq_true_eq] at hok
    obtain ⟨h0, h1, _⟩ := hok
    subst hv hr
    constructor
    · simp only [writeUint16, List.cons_append, List.nil_append]
      congr 1
      · omega
      congr 1
      omega
    · omega

theorem readUint32_inv (b : List Nat) (v : Nat) (r : List Nat)
    (hok : bytesOk b = true) (h : readUint32 b = .ok (v, r)) :
    b = writeUint32 v ++ r ∧ v < 4294967296 := by
  match b, h with
  | b0 :: b1 :: b2 :: b3 :: rb, h =>
    simp only [readUint32, Except.ok.injEq, Prod.mk.injEq] at h
    obtain ⟨hv, hr⟩ := h
    simp only [bytesOk_cons, Bool.and_eq_true, decide_eq_true_eq] at hok
    obtain ⟨h0, h1, h2, h3, _⟩ := hok
    subst hv hr
    constructor
    · simp only [writeUint32, List.cons_append, List.nil_append]
      congr 1
      · omega
      congr 1
      · omega
      congr 1
      · omega
      congr 1
      omega
    · omega

theorem readUint64_inv (b : List Nat) (v : Nat) (r : List Nat)
    (hok : bytesOk b = true) (h : readUint64 b = .ok (v, r)) :
    b = writeUint64 v ++ r ∧ v < 18446744073709551616 := by
  match b, h with
  | b0 :: b1 :: b2 :: b3 :: b4 :: b5 :: b6 :: b7 :: rb, h =>
    simp only [readUint64, Except.ok.injEq, Prod.mk.injEq] at h
    obtain ⟨hv, hr⟩ := h
    simp only [bytesOk_cons, Bool.and_eq_true, decide_eq_true_eq] at hok
    obtain ⟨h0, h1, h2, h3, h4, h5, h6, h7, _⟩ := hok
    subst hv hr
    constructor
    · simp only [writeUint64, List.cons_append, List.nil_append]
      congr 1
      · omega
      congr 1
      · omega
      congr 1
      · omega
      congr 1
      · omega
      congr 1
      · omega
      congr 1
      · omega
      congr 1
      · omega
      congr 1
      omega
    · omega

theorem readBytes_inv (n : Nat) (b : List Nat) (xs : List Nat) (r : List Nat)
    (h : readBytes n b = .ok (xs, r)) : b = xs ++ r ∧ xs.length = n := by
  induction n generalizing b xs r with
  | zero =>
    simp only [readBytes, Except.ok.injEq, Prod.mk.injEq] at h
    obtain ⟨hx, hr⟩ := h
    subst hx hr
    simp
  | succ m ih =>
    match b with
    | [] => simp [readBytes] at h
    | c :: tl =>
      simp only [readBytes] at h
      match hrec : readBytes m tl with
      | .error e => rw [hrec] at h; simp at h
      | .ok (ys, rr) =>
        rw [hrec] at h
        simp only [Except.ok.injEq, Prod.mk.injEq] at h
        obtain ⟨hx, hr⟩ := h
        obtain ⟨htl, hlen⟩ := ih tl ys rr hrec
        subst hx hr htl
        simp [hlen]

theorem powLoop_add (a : Asset) (m n : Nat) (acc : Asset) :
    a.powLoop (m + n) acc = a.powLoop n (a.powLoop m acc) := by
  induction m generalizing acc with
  | zero => simp [Asset.powLoop]
  | succ k ih =>
    have h : k + 1 + n = k + n + 1 := by omega
    rw [h]
    simp only [Asset.powLoop]
    exact ih _

theorem powLoop_mul_comm (a : Asset) (n : Nat) (acc : Asset) :
    a.powLoop n (acc.mul a) = (a.powLoop n acc).mul a := by
  induction n generalizing acc with
  | zero => rfl
  | succ k ih =>
    simp only [Asset.powLoop]
    rw [ih]

theorem powLoop_succ_out (a : Asset) (n : Nat) (acc : Asset) :
    a.powLoop (n + 1) acc = (a.powLoop n acc).mul a := by
  simp only [Asset.powLoop]
  exact powLoop_mul_comm a n acc

/-! Round-trip lemmas for the serializer primitives and the transaction
codec. -/

theorem exbind_ok {α β : Type} (a : α) (f : α → Except String β) :
    (Except.ok a >>= f) = f a := rfl

theorem exbind_err {α β : Type} (e : String) (f : α → Except String β) :
    ((Except.error e : Except String α) >>= f) = Except.error e := rfl

theorem displayMinor_mul (a : Asset) (h : a.amount % 100000 = 0) :
    a.displayMinor * 100000 = a.amount :=
  Int.tdiv_mul_cancel (Int.dvd_of_emod_eq_zero h)

theorem readDigest_ser (d : List Nat) (r : List Nat) (h : digestOk d = true) :
    readDigest (serDigest d ++ r) = .ok (d, r) := by
  simp only [digestOk, Bool.and_eq_true, beq_iff_eq] at h
  obtain ⟨hlen, _⟩ := h
  unfold readDigest serDigest
  rw [← hlen]
  exact readBytes_write d r

theorem readSigPair_ser (s : SigPair) (r : List Nat)
    (h : sigPairOk s = true) : readSigPair (serSigPair s ++ r) = .ok (s, r) := by
  simp only [sigPairOk, Bool.and_eq_true, beq_iff_eq] at h
  obtain ⟨⟨⟨hpk, _⟩, hsg⟩, _⟩ := h
  unfold readSigPair serSigPair serPublicKey readPublicKey
  rw [List.append_assoc, ← hpk]
  simp only [readBytes_write, exbind_ok]
  rw [← hsg]
  simp only [readBytes_write, exbind_ok]

theorem readBuffer_ser (x : List Nat) (r : List Nat)
    (h : bufferOk x = true) : readBuffer (serBuffer x ++ r) = .ok (x, r) := by
  simp only [bufferOk, Bool.and_eq_true, decide_eq_true_eq] at h
  obtain ⟨_, hlen⟩ := h
  unfold readBuffer serBuffer
  rw [List.append_assoc]
  simp only [readUint32_write x.length hlen, exbind_ok, readBytes_write]

theorem readAsset_ser (a : Asset) (r : List Nat) (h : assetOk a = true) :
    readAsset (serAsset a ++ r) = .ok (a, r) := by
  simp only [assetOk, Bool.and_eq_true, beq_iff_eq, decide_eq_true_eq] at h
  obtain ⟨hmod, hlen⟩ := h
  have hmul := displayMinor_mul a hmod
  unfold readAsset serAsset
  rw [List.append_assoc, List.append_assoc]
  have hsbyte : (if a.displayMinor < 0 then 1 else 0) < 256 := by
    split <;> omega
  simp only [readUint8_write _ hsbyte, exbind_ok]
  have hnotbig : ¬ 1 < (if a.displayMinor < 0 then 1 else 0) := by
    split <;> omega
  rw [if_neg hnotbig]
  simp only [readUint32_write _ hlen, exbind_ok, readBytes_write]
  by_cases hz : a.displayMinor = 0
  · have hzero : a.amount = 0 := by
      have := hmul
      rw [hz] at this
      omega
    have hmag : assetMag a.displayMinor.natAbs = [] := by
      rw [hz]
      rfl
    rw [hmag]
    have hsign : (if a.displayMinor < 0 then 1 else 0) = 0 := by
      rw [hz]
      rfl
    simp only [hsign, exbind_ok]
    have ha : (⟨0⟩ : Asset) = a := by
      cases a
      simp_all
    rw [ha]
    rfl
  · have hpos : 0 < a.displayMinor.natAbs := by omega
    have hmag : assetMag a.displayMinor.natAbs =
        renderBE 256 a.displayMinor.natAbs := by
      unfold assetMag
      rw [if_neg (show ¬ (a.displayMinor.natAbs = 0) from by omega)]
    obtain ⟨d, ds, heq, hd⟩ := renderBE_head_pos 256 (by omega)
      a.displayMinor.natAbs hpos
    simp only [hmag, heq]
    rw [if_neg (show ¬ (d = 0) from by omega)]
    have hval : natOfBE 256 (d :: ds) = a.displayMinor.natAbs := by
      rw [← heq, natOfBE_renderBE 256 (by omega)]
    rw [hval]
    have hres : (if (if a.displayMinor < 0 then (1 : Nat) else 0) = 1 then
        -(a.displayMinor.natAbs : Int) else (a.displayMinor.natAbs : Int)) =
        a.displayMinor := by
      by_cases hneg : a.displayMinor < 0
      · rw [if_pos hneg, if_pos rfl]
        omega
      · rw [if_neg hneg, if_neg (by decide)]
        omega
    rw [hres, hmul]

theorem readPublicKey_ser (k : List Nat) (r : List Nat)
    (h : digestOk k = true) :
    readPublicKey (serPublicKey k ++ r) = .ok (k, r) := readDigest_ser k r h

theorem readSigList_ser (l : List SigPair) (r : List Nat)
    (h : l.all sigPairOk = true) :
    readSigList l.length ((l.map serSigPair).flatten ++ r) = .ok (l, r) := by
  induction l with
  | nil => rfl
  | cons s tl ih =>
    simp only [List.all_cons, Bool.and_eq_true] at h
    obtain ⟨hs, htl⟩ := h
    simp only [List.length_cons, List.map_cons, List.flatten_cons,
      readSigList, List.append_assoc]
    simp only [readSigPair_ser s _ hs, exbind_ok]
    simp only [ih htl, exbind_ok]

theorem typeByte_le (p : TxPayload) : p.typeByte ≤ 3 := by
  cases p <;> simp [TxPayload.typeByte]

theorem readPayload_ser (p : TxPayload) (r : List Nat) (h : p.ok = true) :
    readPayload p.typeByte (p.serializeData ++ r) = .ok (p, r) := by
  cases p with
  | owner minter wallet script =>
    simp only [TxPayload.ok, Bool.and_eq_true] at h
    obtain ⟨⟨hm, hw⟩, hs⟩ := h
    simp only [TxPayload.typeByte, TxPayload.serializeData, readPayload,
      List.append_assoc]
    simp only [readPublicKey_ser minter _ hm, exbind_ok]
    simp only [readDigest_ser wallet _ hw, exbind_ok]
    simp only [readBuffer_ser script _ hs, exbind_ok]
  | mint toAddr amount attachment attachmentName script =>
    simp only [TxPayload.ok, Bool.and_eq_true] at h
    obtain ⟨⟨⟨⟨ht, ha⟩, hat⟩, han⟩, hs⟩ := h
    simp only [TxPayload.typeByte, TxPayload.serializeData, readPayload,
      List.append_assoc]
    simp only [readDigest_ser toAddr _ ht, exbind_ok]
    simp only [readAsset_ser amount _ ha, exbind_ok]
    simp only [readBuffer_ser attachment _ hat, exbind_ok]
    simp only [readBuffer_ser attachmentName _ han, exbind_ok]
    simp only [readBuffer_ser script _ hs, exbind_ok]
  | reward toAddr rewards =>
    simp only [TxPayload.ok, Bool.and_eq_true] at h
    obtain ⟨ht, hr⟩ := h
    simp only [TxPayload.typeByte, TxPayload.serializeData, readPayload,
      List.append_assoc]
    simp only [readDigest_ser toAddr _ ht, exbind_ok]
    simp only [readAsset_ser rewards _ hr, exbind_ok]
  | transfer fromAddr toAddr script amount memo =>
    simp only [TxPayload.ok, Bool.and_eq_true] at h
    obtain ⟨⟨⟨⟨hf, ht⟩, hs⟩, ha⟩, hm⟩ := h
    simp only [TxPayload.typeByte, TxPayload.serializeData, readPayload,
      List.append_assoc]
    simp only [readDigest_ser fromAddr _ hf, exbind_ok]
    simp only [readDigest_ser toAddr _ ht, exbind_ok]
    simp only [readBuffer_ser script _ hs, exbind_ok]
    simp only [readAsset_ser amount _ ha, exbind_ok]
    simp only [readBuffer_ser memo _ hm, exbind_ok]

theorem deserializeHeader_ser (t : TxV0) (r : List Nat)
    (hts : t.timestamp.bits < 9223372036854775808)
    (hfee : assetOk t.fee = true) :
    TxV0.deserializeHeader (t.serializeHeader ++ r) =
      .ok ((t.payload.typeByte, ⟨⟨t.timestamp.bits, true⟩, t.fee, []⟩), r) := by
  unfold TxV0.deserializeHeader TxV0.serializeHeader
  simp only [List.append_assoc]
  have hty : t.payload.typeByte < 256 := by
    have := typeByte_le t.payload
    omega
  simp only [readUint8_write _ hty, exbind_ok]
  rw [if_neg (show ¬ (3 < t.payload.typeByte) from by
    have := typeByte_le t.payload
    omega)]
  simp only [readUint64_write t.timestamp.bits (by omega), exbind_ok]
  rw [if_neg (show ¬ (9223372036854775808 ≤ t.timestamp.bits) from by omega)]
  simp only [readAsset_ser t.fee _ hfee, exbind_ok]

/-- The forward round trip of the transaction codec: deserializing the
serialized form (signatures included) of a well-formed transaction whose
timestamp has a clear sign bit recovers the transaction and leaves the
remaining bytes untouched. -/
theorem serialize_roundtrip (t : TxV0) (r : List Nat) (hok : t.ok = true)
    (hts : t.timestamp.bits < 9223372036854775808) :
    TxVariant.deserialize (TxVariant.serialize t true ++ r) = .ok (t, r) := by
  simp only [TxV0.ok, Bool.and_eq_true, decide_eq_true_eq] at hok
  obtain ⟨⟨⟨⟨⟨h64, huns⟩, hfee⟩, hpl⟩, hnsig⟩, hsigs⟩ := hok
  unfold TxVariant.deserialize TxVariant.serialize TxV0.serialize
  simp only [List.append_assoc, if_true]
  simp only [readUint16_write 0 (by omega), exbind_ok, if_pos rfl]
  unfold TxV0.deserialize
  simp only [deserializeHeader_ser t _ hts hfee, exbind_ok]
  simp only [readPayload_ser t.payload _ hpl, exbind_ok]
  simp only [readUint8_write _ (show t.signaturePairs.length < 256 from
    by omega), exbind_ok]
  simp only [readSigList_ser _ _ hsigs, exbind_ok]
  simp only [TxV0.create, Bool.not_true, Bool.false_eq_true, if_false,
    exbind_ok]
  have hlong : (⟨t.timestamp.bits, true⟩ : Long) = t.timestamp := by
    have h := huns
    cases htl : t.timestamp with
    | mk bits uns =>
      rw [htl] at h
      simp at h
      simp [h]
  rw [hlong]
  rfl

/-! Inversion lemmas for the serializer primitives: a successful read of
genuine bytes determines the consumed prefix as the value's canonical
encoding. -/

theorem readDigest_inv (b : List Nat) (d : List Nat) (r : List Nat)
    (h : readDigest b = .ok (d, r)) :
    b = serDigest d ++ r ∧ d.length = 32 := by
  obtain ⟨hb, hlen⟩ := readBytes_inv 32 b d r h
  exact ⟨hb, hlen⟩

theorem readBuffer_inv (b : List Nat) (x : List Nat) (r : List Nat)
    (hok : bytesOk b = true) (h : readBuffer b = .ok (x, r)) :
    b = serBuffer x ++ r := by
  unfold readBuffer at h
  cases h32 : readUint32 b with
  | error e => rw [h32] at h; simp [exbind_err] at h
  | ok v =>
    obtain ⟨n, b2⟩ := v
    rw [h32] at h
    simp only [exbind_ok] at h
    obtain ⟨hb, hn⟩ := readUint32_inv b n b2 hok h32
    obtain ⟨hb2, hlen⟩ := readBytes_inv n b2 x r h
    subst hb hb2 hlen
    rfl

theorem readSigPair_inv (b : List Nat) (s : SigPair) (r : List Nat)
    (h : readSigPair b = .ok (s, r)) :
    b = serSigPair s ++ r ∧ s.publicKey.length = 32 ∧
      s.signature.length = 64 := by
  unfold readSigPair readPublicKey at h
  cases h1 : readBytes 32 b with
  | error e => rw [h1] at h; simp [exbind_err] at h
  | ok v =>
    obtain ⟨pk, b2⟩ := v
    rw [h1] at h
    simp only [exbind_ok] at h
    cases h2 : readBytes 64 b2 with
    | error e => rw [h2] at h; simp [exbind_err] at h
    | ok w =>
      obtain ⟨sg, b3⟩ := w
      rw [h2] at h
      simp only [exbind_ok, Except.ok.injEq, Prod.mk.injEq] at h
      obtain ⟨hs, hr⟩ := h
      obtain ⟨hb, hpk⟩ := readBytes_inv 32 b pk b2 h1
      obtain ⟨hb2, hsg⟩ := readBytes_inv 64 b2 sg b3 h2
      subst hs hr hb hb2
      exact ⟨by simp [serSigPair, serPublicKey], hpk, hsg⟩

theorem readAsset_inv (b : List Nat) (a : Asset) (r : List Nat)
    (hok : bytesOk b = true) (h : readAsset b = .ok (a, r)) :
    b = serAsset a ++ r := by
  unfold readAsset at h
  cases h1 : readUint8 b with
  | error e => rw [h1] at h; simp [exbind_err] at h
  | ok v =>
    obtain ⟨s, b1⟩ := v
    rw [h1] at h
    simp only [exbind_ok] at h
    obtain ⟨hb, hs256⟩ := readUint8_inv b s b1 hok h1
    by_cases hbig : 1 < s
    · rw [if_pos hbig] at h
      simp at h
    rw [if_neg hbig] at h
    have hok1 : bytesOk b1 = true := by
      rw [hb, bytesOk_append] at hok
      exact (Bool.and_eq_true .. |>.mp hok).2
    cases h2 : readUint32 b1 with
    | error e => rw [h2] at h; simp [exbind_err] at h
    | ok w =>
      obtain ⟨len, b2⟩ := w
      rw [h2] at h
      simp only [exbind_ok] at h
      obtain ⟨hb1, hlen32⟩ := readUint32_inv b1 len b2 hok1 h2
      have hok2 : bytesOk b2 = true := by
        rw [hb1, bytesOk_append] at hok1
        exact (Bool.and_eq_true .. |>.mp hok1).2
      cases h3 : readBytes len b2 with
      | error e => rw [h3] at h; simp [exbind_err] at h
      | ok u =>
        obtain ⟨mag, b3⟩ := u
        rw [h3] at h
        simp only [exbind_ok] at h
        obtain ⟨hb2, hmaglen⟩ := readBytes_inv len b2 mag b3 h3
        have hokmag : bytesOk mag = true := by
          rw [hb2, bytesOk_append] at hok2
          exact (Bool.and_eq_true .. |>.mp hok2).1
        cases mag with
        | nil =>
          replace h : (if s = 1 then
              (Except.error ("invalid asset encoding") :
                Except String (Asset × List Nat))
            else Except.ok (⟨0⟩, b3)) = Except.ok (a, r) := h
          by_cases hs1 : s = 1
          · rw [if_pos hs1] at h
            simp at h
          · rw [if_neg hs1] at h
            simp only [Except.ok.injEq, Prod.mk.injEq] at h
            obtain ⟨ha, hr⟩ := h
            subst hr
            rw [hb, hb1, hb2, ← ha]
            have hs0 : s = 0 := by omega
            subst hs0
            simp only [← hmaglen]
            rfl
        | cons d ds =>
          replace h : (if d = 0 then
              (Except.error ("invalid asset encoding") :
                Except String (Asset × List Nat))
            else Except.ok (⟨(if s = 1 then
                -(natOfBE 256 (d :: ds) : Int)
              else (natOfBE 256 (d :: ds) : Int)) * 100000⟩, b3)) =
              Except.ok (a, r) := h
          by_cases hd0 : d = 0
          · rw [if_pos hd0] at h
            simp at h
          · rw [if_neg hd0] at h
            simp only [Except.ok.injEq, Prod.mk.injEq] at h
            obtain ⟨ha, hr⟩ := h
            subst hr
            have hvpos : 0 < natOfBE 256 (d :: ds) :=
              natOfBE_pos 256 (by omega) d ds (by omega)
            have hdiglt : ∀ x ∈ d :: ds, x < 256 := by
              intro x hx
              have := hokmag
              simp only [bytesOk, List.all_eq_true, decide_eq_true_eq] at this
              exact this x hx
            have hcanon : renderBE 256 (natOfBE 256 (d :: ds)) = d :: ds :=
              renderBE_natOfBE 256 (by omega) d ds (by omega) hdiglt
            rw [hb, hb1, hb2]
            set v : Int := (natOfBE 256 (d :: ds) : Int) with hv
            have hDM : a.displayMinor = if s = 1 then -v else v := by
              rw [← ha]
              unfold Asset.displayMinor
              simp only []
              exact Int.mul_tdiv_cancel _ (by norm_num)
            have hvne : v ≠ 0 := by
              simp only [hv]
              omega
            by_cases hs1 : s = 1
            · subst hs1
              rw [if_pos rfl] at hDM
              unfold serAsset
              rw [hDM]
              have hneg : -v < 0 := by omega
              rw [if_pos hneg]
              have hnatAbs : (-v).natAbs = natOfBE 256 (d :: ds) := by omega
              rw [hnatAbs]
              unfold assetMag
              rw [if_neg (by omega), hcanon, ← hmaglen]
              rfl
            · have hs0 : s = 0 := by omega
              subst hs0
              rw [if_neg (by decide)] at hDM
              unfold serAsset
              rw [hDM]
              have hnneg : ¬ v < 0 := by omega
              rw [if_neg hnneg]
              have hnatAbs : v.natAbs = natOfBE 256 (d :: ds) := by omega
              rw [hnatAbs]
              unfold assetMag
              rw [if_neg (by omega), hcanon, ← hmaglen]
              rfl

theorem readSigList_inv (n : Nat) (b : List Nat) (l : List SigPair)
    (r : List Nat) (h : readSigList n b = .ok (l, r)) :
    b = (l.map serSigPair).flatten ++ r ∧ l.length = n := by
  induction n generalizing b l r with
  | zero =>
    simp only [readSigList, Except.ok.injEq, Prod.mk.injEq] at h
    obtain ⟨hl, hr⟩ := h
    subst hl hr
    simp
  | succ m ih =>
    unfold readSigList at h
    cases h1 : readSigPair b with
    | error e => rw [h1] at h; simp [exbind_err] at h
    | ok v =>
      obtain ⟨s, b2⟩ := v
      rw [h1] at h
      simp only [exbind_ok] at h
      cases h2 : readSigList m b2 with
      | error e => rw [h2] at h; simp [exbind_err] at h
      | ok w =>
        obtain ⟨tl, b3⟩ := w
        rw [h2] at h
        simp only [exbind_ok, Except.ok.injEq, Prod.mk.injEq] at h
        obtain ⟨hl, hr⟩ := h
        obtain ⟨hb, _, _⟩ := readSigPair_inv b s b2 h1
        obtain ⟨hb2, hlen⟩ := ih b2 tl b3 h2
        subst hl hr hb hb2
        simp [hlen]

theorem readPayload_inv (ty : Nat) (b : List Nat) (p : TxPayload)
    (r : List Nat) (hok : bytesOk b = true)
    (h : readPayload ty b = .ok (p, r)) :
    ty = p.typeByte ∧ b = p.serializeData ++ r := by
  have hsplit : ∀ (x y : List Nat), b = x ++ y → bytesOk y = true := by
    intro x y hxy
    rw [hxy, bytesOk_append] at hok
    exact (Bool.and_eq_true .. |>.mp hok).2
  match ty with
  | 0 =>
    simp only [readPayload] at h
    cases h1 : readPublicKey b with
    | error e => rw [h1] at h; simp [exbind_err] at h
    | ok v =>
      obtain ⟨minter, b2⟩ := v
      rw [h1] at h
      simp only [exbind_ok] at h
      cases h2 : readDigest b2 with
      | error e => rw [h2] at h; simp [exbind_err] at h
      | ok w =>
        obtain ⟨wallet, b3⟩ := w
        rw [h2] at h
        simp only [exbind_ok] at h
        cases h3 : readBuffer b3 with
        | error e => rw [h3] at h; simp [exbind_err] at h
        | ok u =>
          obtain ⟨script, b4⟩ := u
          rw [h3] at h
          simp only [exbind_ok, Except.ok.injEq, Prod.mk.injEq] at h
          obtain ⟨hp, hr⟩ := h
          obtain ⟨hb, _⟩ := readBytes_inv 32 b minter b2 h1
          obtain ⟨hb2, _⟩ := readBytes_inv 32 b2 wallet b3 h2
          have hb3 : b3 = serBuffer script ++ b4 :=
            readBuffer_inv b3 script b4
              (hsplit (minter ++ wallet) b3 (by rw [hb, hb2]; simp)) h3
          subst hp hr hb hb2 hb3
          simp [TxPayload.serializeData, serDigest, serPublicKey,
            TxPayload.typeByte]
  | 1 =>
    simp only [readPayload] at h
    cases h1 : readDigest b with
    | error e => rw [h1] at h; simp [exbind_err] at h
    | ok v =>
      obtain ⟨toAddr, b2⟩ := v
      rw [h1] at h
      simp only [exbind_ok] at h
      cases h2 : readAsset b2 with
      | error e => rw [h2] at h; simp [exbind_err] at h
      | ok w =>
        obtain ⟨amount, b3⟩ := w
        rw [h2] at h
        simp only [exbind_ok] at h
        cases h3 : readBuffer b3 with
        | error e => rw [h3] at h; simp [exbind_err] at h
        | ok u =>
          obtain ⟨attachment, b4⟩ := u
          rw [h3] at h
          simp only [exbind_ok] at h
          cases h4 : readBuffer b4 with
          | error e => rw [h4] at h; simp [exbind_err] at h
          | ok u2 =>
            obtain ⟨attachmentName, b5⟩ := u2
            rw [h4] at h
            simp only [exbind_ok] at h
            cases h5 : readBuffer b5 with
            | error e => rw [h5] at h; simp [exbind_err] at h
            | ok u3 =>
              obtain ⟨script, b6⟩ := u3
              rw [h5] at h
              simp only [exbind_ok, Except.ok.injEq, Prod.mk.injEq] at h
              obtain ⟨hp, hr⟩ := h
              obtain ⟨hb, _⟩ := readBytes_inv 32 b toAddr b2 h1
              have hokb2 : bytesOk b2 = true := hsplit toAddr b2 hb
              have hb2 : b2 = serAsset amount ++ b3 :=
                readAsset_inv b2 amount b3 hokb2 h2
              have hokb3 : bytesOk b3 = true :=
                hsplit (toAddr ++ serAsset amount) b3 (by rw [hb, hb2]; simp)
              have hb3 : b3 = serBuffer attachment ++ b4 :=
                readBuffer_inv b3 attachment b4 hokb3 h3
              have hokb4 : bytesOk b4 = true :=
                hsplit (toAddr ++ serAsset amount ++ serBuffer attachment) b4
                  (by rw [hb, hb2, hb3]; simp)
              have hb4 : b4 = serBuffer attachmentName ++ b5 :=
                readBuffer_inv b4 attachmentName b5 hokb4 h4
              have hokb5 : bytesOk b5 = true :=
                hsplit (toAddr ++ serAsset amount ++ serBuffer attachment ++
                  serBuffer attachmentName) b5 (by rw [hb, hb2, hb3, hb4]; simp)
              have hb5 : b5 = serBuffer script ++ b6 :=
                readBuffer_inv b5 script b6 hokb5 h5
              subst hp hr hb hb2 hb3 hb4 hb5
              simp [TxPayload.serializeData, serDigest, TxPayload.typeByte]
  | 2 =>
    simp only [readPayload] at h
    cases h1 : readDigest b with
    | error e => rw [h1] at h; simp [exbind_err] at h
    | ok v =>
      obtain ⟨toAddr, b2⟩ := v
      rw [h1] at h
      simp only [exbind_ok] at h
      cases h2 : readAsset b2 with
      | error e => rw [h2] at h; simp [exbind_err] at h
      | ok w =>
        obtain ⟨rewards, b3⟩ := w
        rw [h2] at h
        simp only [exbind_ok, Except.ok.injEq, Prod.mk.injEq] at h
        obtain ⟨hp, hr⟩ := h
        obtain ⟨hb, _⟩ := readBytes_inv 32 b toAddr b2 h1
        have hb2 : b2 = serAsset rewards ++ b3 :=
          readAsset_inv b2 rewards b3 (hsplit toAddr b2 hb) h2
        subst hp hr hb hb2
        simp [TxPayload.serializeData, serDigest, TxPayload.typeByte]
  | 3 =>
    simp only [readPayload] at h
    cases h1 : readDigest b with
    | error e => rw [h1] at h; simp [exbind_err] at h
    | ok v =>
      obtain ⟨fromAddr, b2⟩ := v
      rw [h1] at h
      simp only [exbind_ok] at h
      cases h2 : readDigest b2 with
      | error e => rw [h2] at h; simp [exbind_err] at h
      | ok w =>
        obtain ⟨toAddr, b3⟩ := w
        rw [h2] at h
        simp only [exbind_ok] at h
        cases h3 : readBuffer b3 with
        | error e => rw [h3] at h; simp [exbind_err] at h
        | ok u =>
          obtain ⟨script, b4⟩ := u
          rw [h3] at h
          simp only [exbind_ok] at h
          cases h4 : readAsset b4 with
          | error e => rw [h4] at h; simp [exbind_err] at h
          | ok u2 =>
            obtain ⟨amount, b5⟩ := u2
            rw [h4] at h
            simp only [exbind_ok] at h
            cases h5 : readBuffer b5 with
            | error e => rw [h5] at h; simp [exbind_err] at h
            | ok u3 =>
              obtain ⟨memo, b6⟩ := u3
              rw [h5] at h
              simp only [exbind_ok, Except.ok.injEq, Prod.mk.injEq] at h
              obtain ⟨hp, hr⟩ := h
              obtain ⟨hb, _⟩ := readBytes_inv 32 b fromAddr b2 h1
              obtain ⟨hb2, _⟩ := readBytes_inv 32 b2 toAddr b3 h2
              have hokb3 : bytesOk b3 = true :=
                hsplit (fromAddr ++ toAddr) b3 (by rw [hb, hb2]; simp)
              have hb3 : b3 = serBuffer script ++ b4 :=
                readBuffer_inv b3 script b4 hokb3 h3
              have hokb4 : bytesOk b4 = true :=
                hsplit (fromAddr ++ toAddr ++ serBuffer script) b4
                  (by rw [hb, hb2, hb3]; simp)
              have hb4 : b4 = serAsset amount ++ b5 :=
                readAsset_inv b4 amount b5 hokb4 h4
              have hokb5 : bytesOk b5 = true :=
                hsplit (fromAddr ++ toAddr ++ serBuffer script ++
                  serAsset amount) b5 (by rw [hb, hb2, hb3, hb4]; simp)
              have hb5 : b5 = serBuffer memo ++ b6 :=
                readBuffer_inv b5 memo b6 hokb5 h5
              subst hp hr hb hb2 hb3 hb4 hb5
              simp [TxPayload.serializeData, serDigest, TxPayload.typeByte]
  | n + 4 =>
    replace h : (Except.error ("unknown tx type deserializing header") :
      Except String (TxPayload × List Nat)) = .ok (p, r) := h
    simp at h

theorem deserializeHeader_inv (b : List Nat) (ty : Nat) (data : TxData)
    (r : List Nat) (hok : bytesOk b = true)
    (h : TxV0.deserializeHeader b = .ok ((ty, data), r)) :
    b = writeUint8 ty ++ writeUint64 data.timestamp.bits ++
        serAsset data.fee ++ r ∧
      ty ≤ 3 ∧ data.timestamp = ⟨data.timestamp.bits, true⟩ ∧
      data.timestamp.bits < 9223372036854775808 ∧
      data.signaturePairs = [] := by
  unfold TxV0.deserializeHeader at h
  cases h1 : readUint8 b with
  | error e => rw [h1] at h; simp [exbind_err] at h
  | ok v =>
    obtain ⟨ty0, b1⟩ := v
    rw [h1] at h
    simp only [exbind_ok] at h
    by_cases hty : 3 < ty0
    · rw [if_pos hty] at h
      simp at h
    rw [if_neg hty] at h
    obtain ⟨hb, hty256⟩ := readUint8_inv b ty0 b1 hok h1
    have hok1 : bytesOk b1 = true := by
      rw [hb, bytesOk_append] at hok
      exact (Bool.and_eq_true .. |>.mp hok).2
    cases h2 : readUint64 b1 with
    | error e => rw [h2] at h; simp [exbind_err] at h
    | ok w =>
      obtain ⟨ts, b2⟩ := w
      rw [h2] at h
      simp only [exbind_ok] at h
      by_cases hsign : 9223372036854775808 ≤ ts
      · rw [if_pos hsign] at h
        simp at h
      rw [if_neg hsign] at h
      obtain ⟨hb1, hts64⟩ := readUint64_inv b1 ts b2 hok1 h2
      have hok2 : bytesOk b2 = true := by
        rw [hb1, bytesOk_append] at hok1
        exact (Bool.and_eq_true .. |>.mp hok1).2
      cases h3 : readAsset b2 with
      | error e => rw [h3] at h; simp [exbind_err] at h
      | ok u =>
        obtain ⟨fee, b3⟩ := u
        rw [h3] at h
        simp only [exbind_ok, Except.ok.injEq, Prod.mk.injEq] at h
        obtain ⟨⟨hty0, hdata⟩, hr⟩ := h
        have hb2 : b2 = serAsset fee ++ b3 :=
          readAsset_inv b2 fee b3 hok2 h3
        subst hty0 hr
        rw [← hdata]
        subst hb hb1 hb2
        refine ⟨by simp, by omega, rfl, by simpa using hsign, rfl⟩

/-- The backward direction of the transaction codec: whenever deserialization
of genuine bytes succeeds, the consumed prefix is exactly the canonical
serialization (signatures included) of the resulting transaction. -/
theorem deserialize_inv (b : List Nat) (t : TxV0) (rest : List Nat)
    (hok : bytesOk b = true)
    (h : TxVariant.deserialize b = .ok (t, rest)) :
    TxVariant.serialize t true ++ rest = b := by
  unfold TxVariant.deserialize at h
  cases h1 : readUint16 b with
  | error e => rw [h1] at h; simp [exbind_err] at h
  | ok v =>
    obtain ⟨ver, b1⟩ := v
    rw [h1] at h
    simp only [exbind_ok] at h
    by_cases hver : ver = 0
    swap
    · rw [if_neg hver] at h
      simp at h
    rw [if_pos hver] at h
    subst hver
    obtain ⟨hb, _⟩ := readUint16_inv b 0 b1 hok h1
    have hok1 : bytesOk b1 = true := by
      rw [hb, bytesOk_append] at hok
      exact (Bool.and_eq_true .. |>.mp hok).2
    unfold TxV0.deserialize at h
    cases h2 : TxV0.deserializeHeader b1 with
    | error e => rw [h2] at h; simp [exbind_err] at h
    | ok w =>
      obtain ⟨⟨ty, data⟩, b2⟩ := w
      rw [h2] at h
      simp only [exbind_ok] at h
      obtain ⟨hb1, htyle, hdatats, hts, hdsigs⟩ :=
        deserializeHeader_inv b1 ty data b2 hok1 h2
      have hok2 : bytesOk b2 = true := by
        rw [hb1, bytesOk_append, bytesOk_append, bytesOk_append] at hok1
        simp only [Bool.and_eq_true] at hok1
        exact hok1.2
      cases h3 : readPayload ty b2 with
      | error e => rw [h3] at h; simp [exbind_err] at h
      | ok u =>
        obtain ⟨payload, b3⟩ := u
        rw [h3] at h
        simp only [exbind_ok] at h
        obtain ⟨htyeq, hb2⟩ := readPayload_inv ty b2 payload b3 hok2 h3
        have hok3 : bytesOk b3 = true := by
          rw [hb2, bytesOk_append] at hok2
          exact (Bool.and_eq_true .. |>.mp hok2).2
        cases h4 : readUint8 b3 with
        | error e => rw [h4] at h; simp [exbind_err] at h
        | ok u2 =>
          obtain ⟨count, b4⟩ := u2
          rw [h4] at h
          simp only [exbind_ok] at h
          obtain ⟨hb3, hcount⟩ := readUint8_inv b3 count b4 hok3 h4
          cases h5 : readSigList count b4 with
          | error e => rw [h5] at h; simp [exbind_err] at h
          | ok u3 =>
            obtain ⟨sigs, b5⟩ := u3
            rw [h5] at h
            simp only [exbind_ok] at h
            obtain ⟨hb4, hnsigs⟩ := readSigList_inv count b4 sigs b5 h5
            replace h : (if !(data.timestamp.unsigned) then
                (Except.error ("timestamp must be an unsigned long") :
                  Except String TxV0)
              else Except.ok ⟨data.timestamp, data.fee, sigs, payload⟩)
                >>= (fun t0 => Except.ok (t0, b5)) = Except.ok (t, rest) := h
            rw [hdatats] at h
            simp only [Bool.not_true, Bool.false_eq_true, if_false,
              exbind_ok, Except.ok.injEq, Prod.mk.injEq] at h
            obtain ⟨ht, hrest⟩ := h
            subst hrest
            subst ht
            unfold TxVariant.serialize TxV0.serialize TxV0.serializeHeader
            rw [hb, hb1, hb2, hb3, hb4]
            simp [htyeq, hnsigs, List.append_assoc]

/-! Lemmas about digit characters, the numeral parser and decimal
rendering, used for the formatting round trip. -/

theorem charVal_digitChar (c : Char) (v : Nat) (h : charVal c = some v) :
    v < 10 ∧ digitChar v = c := by
  unfold charVal at h
  split_ifs at h with h0 h1 h2 h3 h4 h5 h6 h7 h8 h9
  all_goals first
    | exact Option.noConfusion h
    | (injection h with h; subst h; subst_vars; exact ⟨by omega, rfl⟩)

theorem takeDigits_inv (l : List Char) :
    ∀ d r, takeDigits l = (d, r) →
      l = d ++ r ∧ ∀ c ∈ d, isDigitChar c = true := by
  induction l with
  | nil =>
    intro d r h
    simp only [takeDigits, Prod.mk.injEq] at h
    obtain ⟨hd, hr⟩ := h
    subst hd hr
    simp
  | cons c tl ih =>
    intro d r h
    unfold takeDigits at h
    cases htl : takeDigits tl with
    | mk d1 r1 =>
      rw [htl] at h
      by_cases hc : isDigitChar c = true
      · rw [if_pos hc] at h
        simp only [Prod.mk.injEq] at h
        obtain ⟨hd, hr⟩ := h
        subst hd hr
        obtain ⟨hl, hdig⟩ := ih d1 r1 htl
        refine ⟨by simp [hl], ?_⟩
        intro x hx
        rcases List.mem_cons.mp hx with hx | hx
        · exact hx ▸ hc
        · exact hdig x hx
      · rw [if_neg hc] at h
        simp only [Prod.mk.injEq] at h
        obtain ⟨hd, hr⟩ := h
        subst hd hr
        simp

theorem parseBody_digits (neg : Bool) (body : List Char) (p : NumParts)
    (h : parseBody neg body = some p) :
    p.neg = neg ∧ (∀ c ∈ p.intPart, isDigitChar c = true) ∧
      (∀ F, p.fracPart = some F → ∀ c ∈ F, isDigitChar c = true) := by
  unfold parseBody at h
  cases h1 : takeDigits body with
  | mk ip rest1 =>
    rw [h1] at h
    obtain ⟨_, hipdig⟩ := takeDigits_inv body ip rest1 h1
    cases rest1 with
    | nil =>
      replace h : (if ip.isEmpty then none
        else some (⟨neg, ip, none⟩ : NumParts)) = some p := h
      by_cases hemp : ip.isEmpty
      · rw [if_pos hemp] at h
        simp at h
      · rw [if_neg hemp] at h
        simp only [Option.some.injEq] at h
        subst h
        exact ⟨rfl, hipdig, by simp⟩
    | cons c2 r2 =>
      replace h : (if c2 = '.' then
          (match takeDigits r2 with
            | (fp, rest2) =>
              match rest2 with
              | [] =>
                if ip.isEmpty && fp.isEmpty then none
                else some (⟨neg, ip, some fp⟩ : NumParts)
              | _ => none)
        else none) = some p := h
      by_cases hdot : c2 = '.'
      · rw [if_pos hdot] at h
        cases h2 : takeDigits r2 with
        | mk fp rest2 =>
          rw [h2] at h
          obtain ⟨_, hfpdig⟩ := takeDigits_inv r2 fp rest2 h2
          cases rest2 with
          | nil =>
            replace h : (if ip.isEmpty && fp.isEmpty then none
              else some (⟨neg, ip, some fp⟩ : NumParts)) = some p := h
            by_cases hemp2 : (ip.isEmpty && fp.isEmpty) = true
            · rw [if_pos hemp2] at h
              simp at h
            · rw [if_neg hemp2] at h
              simp only [Option.some.injEq] at h
              subst h
              refine ⟨rfl, hipdig, ?_⟩
              intro F hF
              simp only [Option.some.injEq] at hF
              subst hF
              exact hfpdig
          | cons c3 r3 =>
            replace h : (none : Option NumParts) = some p := h
            simp at h
      · rw [if_neg hdot] at h
        simp at h

theorem parseNumeral_digits (l : List Char) (p : NumParts)
    (h : parseNumeral l = some p) :
    (∀ c ∈ p.intPart, isDigitChar c = true) ∧
      (∀ F, p.fracPart = some F → ∀ c ∈ F, isDigitChar c = true) := by
  unfold parseNumeral at h
  split at h
  · exact (parseBody_digits true _ p h).2
  · exact (parseBody_digits false _ p h).2

theorem digitVals_lt (l : List Char) (h : ∀ c ∈ l, isDigitChar c = true) :
    ∀ v ∈ digitVals l, v < 10 := by
  intro v hv
  simp only [digitVals, List.mem_map] at hv
  obtain ⟨c, hc, hcv⟩ := hv
  have hd := h c hc
  simp only [isDigitChar, Option.isSome_iff_exists] at hd
  obtain ⟨w, hw⟩ := hd
  obtain ⟨hwlt, _⟩ := charVal_digitChar c w hw
  rw [← hcv, hw]
  simpa using hwlt

theorem map_digitChar_digitVals (l : List Char)
    (h : ∀ c ∈ l, isDigitChar c = true) :
    (digitVals l).map digitChar = l := by
  induction l with
  | nil => rfl
  | cons c tl ih =>
    have hd := h c (by simp)
    simp only [isDigitChar, Option.isSome_iff_exists] at hd
    obtain ⟨w, hw⟩ := hd
    obtain ⟨_, hback⟩ := charVal_digitChar c w hw
    simp only [digitVals, List.map_cons, List.map_map] at ih ⊢
    rw [hw]
    simp only [Option.getD_some]
    rw [hback]
    congr 1
    exact ih (fun x hx => h x (by simp [hx]))

theorem charVal_zero_iff (c : Char) (hdig : isDigitChar c = true) :
    (charVal c).getD 0 = 0 ↔ c = '0' := by
  simp only [isDigitChar, Option.isSome_iff_exists] at hdig
  obtain ⟨w, hw⟩ := hdig
  obtain ⟨_, hback⟩ := charVal_digitChar c w hw
  rw [hw]
  simp only [Option.getD_some]
  constructor
  · intro h0
    rw [← hback, h0]
    rfl
  · intro hc
    subst hc
    have h1 : (some w : Option Nat) = some 0 := by
      rw [← hw]
      rfl
    exact Option.some.inj h1

theorem digitVals_dropWhile_zero (l : List Char)
    (h : ∀ c ∈ l, isDigitChar c = true) :
    digitVals (l.dropWhile (· = '0')) = (digitVals l).dropWhile (· = 0) := by
  induction l with
  | nil => rfl
  | cons c tl ih =>
    have hdig := h c (by simp)
    have hiff := charVal_zero_iff c hdig
    by_cases hc : c = '0'
    · subst hc
      rw [List.dropWhile_cons]
      rw [if_pos (by simp)]
      have heq0 : digitVals ('0' :: tl) = 0 :: digitVals tl := rfl
      rw [heq0, List.dropWhile_cons]
      rw [if_pos (by simp)]
      exact ih (fun x hx => h x (by simp [hx]))
    · rw [List.dropWhile_cons]
      rw [if_neg (by simpa using hc)]
      have hval : ¬ ((charVal c).getD 0 = 0) := fun hcv => hc (hiff.mp hcv)
      have heqv : digitVals (c :: tl) = (charVal c).getD 0 :: digitVals tl := rfl
      rw [heqv, List.dropWhile_cons]
      rw [if_neg (by simpa using hval)]

theorem dropWhile_head_false {α : Type} (p : α → Bool) (l : List α) (a : α)
    (t : List α) (h : l.dropWhile p = a :: t) : p a = false := by
  induction l with
  | nil => simp [List.dropWhile] at h
  | cons c tl ih =>
    rw [List.dropWhile_cons] at h
    by_cases hc : p c = true
    · rw [if_pos hc] at h
      exact ih h
    · rw [if_neg hc] at h
      obtain ⟨hca, _⟩ := List.cons.injEq .. |>.mp h
      subst hca
      simpa using hc

/-- Unfolding of Asset.fromString once the input splits into exactly two
tokens. -/
theorem fromString_eq_two (s amt sym : List Char)
    (h : splitOnSpace s = [amt, sym]) :
    Asset.fromString s =
      (match parseNumeral amt with
        | none => .error ("amount must be a valid number")
        | some p =>
          if 20 < sigDigitCount p then .error ("input too large")
          else
            match p.fracPart with
            | none => .error ("invalid format")
            | some F =>
              if F.length ≠ 5 then .error ("invalid precision")
              else if sym ≠ assetSymbol then
                .error ("asset type must be GRAEL")
              else
                .ok ⟨(if p.neg then
                    -(natOfBE 10 (digitVals (p.intPart ++ F)) : Int)
                  else (natOfBE 10 (digitVals (p.intPart ++ F)) : Int)) *
                  100000⟩) := by
  unfold Asset.fromString
  rw [h]

theorem fromString_eq_parsed (s amt sym : List Char) (p : NumParts)
    (hsp : splitOnSpace s = [amt, sym]) (hp : parseNumeral amt = some p) :
    Asset.fromString s =
      (if 20 < sigDigitCount p then .error ("input too large")
      else
        match p.fracPart with
        | none => .error ("invalid format")
        | some F =>
          if F.length ≠ 5 then .error ("invalid precision")
          else if sym ≠ assetSymbol then .error ("asset type must be GRAEL")
          else
            .ok ⟨(if p.neg then
                -(natOfBE 10 (digitVals (p.intPart ++ F)) : Int)
              else (natOfBE 10 (digitVals (p.intPart ++ F)) : Int)) *
              100000⟩) := by
  rw [fromString_eq_two s amt sym hsp, hp]

theorem normalizeAsset_eq (s amt sym : List Char) (p : NumParts)
    (hsp : splitOnSpace s = [amt, sym]) (hp : parseNumeral amt = some p) :
    normalizeAsset s = normalizeAmount p ++ ' ' :: assetSymbol := by
  have h1 : normalizeAsset s = (match parseNumeral amt with
      | some q => normalizeAmount q ++ ' ' :: assetSymbol
      | none => s) := by
    unfold normalizeAsset
    rw [hsp]
  rw [h1, hp]

theorem toString_eq (a : Asset) (inc : Bool) :
    a.toString inc =
      (if a.displayMinor < 0 then ['-'] else []) ++
        renderNat10 (a.displayMinor.natAbs / 100000) ++
        '.' :: pad5Nat (a.displayMinor.natAbs % 100000) ++
        (if inc then ' ' :: assetSymbol else []) := rfl

/-- The computational core of the parse/format round trip: formatting the
exact minor-unit value of a numeral with digit characters I (integer part)
and F (5 fraction digits) yields the sign exactly on negative nonzero
values, the integer digits with redundant leading zeros removed (a single 0
when none remain), the fraction digits unchanged, and the symbol suffix. -/
theorem toString_normalize_core (I F : List Char)
    (hIdig : ∀ c ∈ I, isDigitChar c = true)
    (hFdig : ∀ c ∈ F, isDigitChar c = true)
    (hlen5 : F.length = 5) (neg : Bool) :
    Asset.toString ⟨(if neg then -(natOfBE 10 (digitVals (I ++ F)) : Int)
      else (natOfBE 10 (digitVals (I ++ F)) : Int)) * 100000⟩ true =
      (if neg && !((digitVals (I ++ F)).all (· = 0)) then ['-'] else []) ++
      (if (I.dropWhile (· = '0')).isEmpty then ['0']
        else I.dropWhile (· = '0')) ++ '.' :: F ++ ' ' :: assetSymbol := by
  have hIlt : ∀ x ∈ digitVals I, x < 10 := digitVals_lt I hIdig
  have hFlt : ∀ x ∈ digitVals F, x < 10 := digitVals_lt F hFdig
  have hFlen : (digitVals F).length = 5 := by
    simp [digitVals, hlen5]
  have hvals : digitVals (I ++ F) = digitVals I ++ digitVals F := by
    simp [digitVals]
  have hvFlt : natOfBE 10 (digitVals F) < 100000 := by
    have h1 := natOfBE_lt 10 (digitVals F) hFlt
    rw [hFlen] at h1
    norm_num at h1
    exact h1
  have hsplit : natOfBE 10 (digitVals (I ++ F)) =
      natOfBE 10 (digitVals I) * 100000 + natOfBE 10 (digitVals F) := by
    rw [hvals, natOfBE_append, hFlen]
    norm_num
  obtain ⟨hdivq, hmodq⟩ := div_mod_mul_add 100000 (natOfBE 10 (digitVals I))
    (natOfBE 10 (digitVals F)) (by norm_num) hvFlt
  have hdiv : natOfBE 10 (digitVals (I ++ F)) / 100000 =
      natOfBE 10 (digitVals I) := by
    rw [hsplit]
    exact hdivq
  have hmod : natOfBE 10 (digitVals (I ++ F)) % 100000 =
      natOfBE 10 (digitVals F) := by
    rw [hsplit]
    exact hmodq
  have hdm : ∀ x : Int, Asset.displayMinor ⟨x * 100000⟩ = x := fun x =>
    Int.mul_tdiv_cancel x (by norm_num)
  have habs : ((if neg then -(natOfBE 10 (digitVals (I ++ F)) : Int)
      else (natOfBE 10 (digitVals (I ++ F)) : Int))).natAbs =
      natOfBE 10 (digitVals (I ++ F)) := by
    cases neg <;> simp
  have hpad : pad5Nat (natOfBE 10 (digitVals F)) = F := by
    have h1 : padBE 10 (digitVals F).length (natOfBE 10 (digitVals F)) =
        digitVals F := padBE_natOfBE 10 (by norm_num) (digitVals F) hFlt
    rw [hFlen] at h1
    unfold pad5Nat
    rw [h1]
    exact map_digitChar_digitVals F hFdig
  have hdw := digitVals_dropWhile_zero I hIdig
  have hrender : renderNat10 (natOfBE 10 (digitVals I)) =
      (if (I.dropWhile (· = '0')).isEmpty then ['0']
        else I.dropWhile (· = '0')) := by
    cases hd : (digitVals I).dropWhile (· = 0) with
    | nil =>
      have hz : natOfBE 10 (digitVals I) = 0 := by
        have h2 := natOfBE_dropWhile_zero 10 (digitVals I)
        rw [hd] at h2
        simpa [natOfBE] using h2.symm
      have hnild : digitVals (I.dropWhile (· = '0')) = [] := by
        rw [hdw, hd]
      have hnil : I.dropWhile (· = '0') = [] := by
        have h3 : (I.dropWhile (· = '0')).map
            (fun c => (charVal c).getD 0) = [] := hnild
        exact List.map_eq_nil_iff.mp h3
      have hemp : (I.dropWhile (· = '0')).isEmpty = true := by
        rw [hnil]
        rfl
      rw [hz, if_pos hemp]
      unfold renderNat10
      rw [renderBE_small 10 0 (by norm_num)]
      rfl
    | cons d0 t0 =>
      have hd0f : (decide (d0 = 0)) = false :=
        dropWhile_head_false (· = 0) (digitVals I) d0 t0 hd
      have hd0 : d0 ≠ 0 := by simpa using hd0f
      have hvIeq : natOfBE 10 (digitVals I) = natOfBE 10 (d0 :: t0) := by
        have h2 := natOfBE_dropWhile_zero 10 (digitVals I)
        rw [hd] at h2
        exact h2.symm
      have hlt2 : ∀ x ∈ d0 :: t0, x < 10 := by
        intro x hx
        exact hIlt x ((List.dropWhile_sublist _).subset (by rw [hd]; exact hx))
      have hrb : renderBE 10 (natOfBE 10 (d0 :: t0)) = d0 :: t0 :=
        renderBE_natOfBE 10 (by norm_num) d0 t0 (Nat.pos_of_ne_zero hd0) hlt2
      have hdchars : digitVals (I.dropWhile (· = '0')) = d0 :: t0 := by
        rw [hdw, hd]
      have hne : (I.dropWhile (· = '0')).isEmpty = false := by
        cases hcase : I.dropWhile (· = '0') with
        | nil =>
          rw [hcase] at hdchars
          exact absurd hdchars (by simp [digitVals])
        | cons c cs =>
          rfl
      rw [if_neg (by simp [hne])]
      unfold renderNat10
      rw [hvIeq, hrb, ← hdchars]
      exact map_digitChar_digitVals (I.dropWhile (· = '0'))
        (fun c hc => hIdig c ((List.dropWhile_sublist _).subset hc))
  have hzero_iff : ((digitVals (I ++ F)).all (· = 0) = true) ↔
      natOfBE 10 (digitVals (I ++ F)) = 0 := by
    rw [List.all_eq_true, natOfBE_eq_zero_iff 10 (by norm_num)]
    constructor
    · intro h1 d hd
      simpa using h1 d hd
    · intro h1 d hd
      simpa using h1 d hd
  have hsign : (if (if neg then -(natOfBE 10 (digitVals (I ++ F)) : Int)
        else (natOfBE 10 (digitVals (I ++ F)) : Int)) < 0
        then ['-'] else ([] : List Char))
      = (if neg && !((digitVals (I ++ F)).all (· = 0))
        then ['-'] else []) := by
    cases neg with
    | false =>
      have hge : ¬ ((natOfBE 10 (digitVals (I ++ F)) : Int) < 0) := by
        omega
      simp [hge]
    | true =>
      by_cases hz : natOfBE 10 (digitVals (I ++ F)) = 0
      · have hall : (digitVals (I ++ F)).all (· = 0) = true := hzero_iff.mpr hz
        simp [hall, hz]
      · have hall : (digitVals (I ++ F)).all (· = 0) = false := by
          cases hh : (digitVals (I ++ F)).all (· = 0) with
          | true => exact absurd (hzero_iff.mp hh) hz
          | false => rfl
        have hlt : -(natOfBE 10 (digitVals (I ++ F)) : Int) < 0 := by
          have hpos := Nat.pos_of_ne_zero hz
          omega
        simp [hall, hlt]
  rw [toString_eq, hdm, habs, hdiv, hmod, hsign, hrender, hpad]
  simp

/-- Unfolding of normalizeAmount at a numeral whose fraction part is
present. -/
theorem normalizeAmount_eq (p : NumParts) (F : List Char)
    (hF : p.fracPart = some F) :
    normalizeAmount p =
      (if p.neg && !((digitVals (p.intPart ++ F)).all (· = 0))
        then ['-'] else []) ++
      (if (p.intPart.dropWhile (· = '0')).isEmpty then ['0']
        else p.intPart.dropWhile (· = '0')) ++ '.' :: F := by
  unfold normalizeAmount
  rw [hF]
  rfl

/-! ### Claim theorems -/

/-- C3 counterexample: as raw asset values (big.js amounts), the product of
123.45600 GRAEL and 100000.11111 GRAEL is not the parse of
12345613.71719 GRAEL — the product keeps 5 decimal places of the minor-unit
amount (12345613.71719616 GRAEL), so multiplication does not truncate to
exactly 5 fractional GRAEL digits and the claimed value equality fails; the
two sides agree only after formatting. -/
theorem mul_not_value_equal :
    Asset.fromString (("123.45600 GRAEL").data) = .ok ⟨1234560000000⟩ ∧
    Asset.fromString (("100000.11111 GRAEL").data) = .ok ⟨1000001111100000⟩ ∧
    Asset.fromString (("12345613.71719 GRAEL").data) =
      .ok ⟨123456137171900000⟩ ∧
    Asset.mul ⟨1234560000000⟩ ⟨1000001111100000⟩ ≠ ⟨123456137171900000⟩ ∧
    (Asset.mul ⟨1234560000000⟩ ⟨1000001111100000⟩).amount =
      123456137171961600 := by
  refine ⟨rfl, rfl, rfl, ?_, rfl⟩
  decide

set_option maxRecDepth 3000 in
theorem powChunk1 : Asset.powLoop ⟨10002000000⟩ 250 Asset.one =
    ⟨10512658284⟩ := by decide

set_option maxRecDepth 3000 in
theorem powChunk2 : Asset.powLoop ⟨10002000000⟩ 250 ⟨10512658284⟩ =
    ⟨11051598421⟩ := by decide

set_option maxRecDepth 3000 in
theorem powChunk3 : Asset.powLoop ⟨10002000000⟩ 250 ⟨11051598421⟩ =
    ⟨11618167775⟩ := by decide

set_option maxRecDepth 3000 in
theorem powChunk4 : Asset.powLoop ⟨10002000000⟩ 250 ⟨11618167775⟩ =
    ⟨12213782788⟩ := by decide

/-- C3 (amended): add/sub are exact on amounts so add-then-sub cancels
exactly; mul and div truncate the exact decimal result toward zero at 5
decimal places of the minor-unit amount (scale 10^10 of the stored amount),
never rounding away from zero; pow is repeated multiplication truncating at
every intermediate step; and the three literal identities hold for the
formatted results, as the repository tests state them. -/
theorem asset_arithmetic_spec :
    (∀ a b : Asset, (a.add b).sub b = a) ∧
    (∀ a b : Asset, ((a.add b).amount = a.amount + b.amount) ∧
      ((a.sub b).amount = a.amount - b.amount)) ∧
    (∀ a b : Asset,
      (a.mul b).amount = Int.tdiv (a.amount * b.amount) 10000000000 ∧
      ((a.mul b).amount * 10000000000).natAbs ≤ (a.amount * b.amount).natAbs ∧
      (a.amount * b.amount).natAbs - ((a.mul b).amount * 10000000000).natAbs
        < 10000000000) ∧
    (∀ a b : Asset, b.amount ≠ 0 →
      a.div b = .ok ⟨Int.tdiv (a.amount * 10000000000) b.amount⟩ ∧
      ((Int.tdiv (a.amount * 10000000000) b.amount) * b.amount).natAbs ≤
        (a.amount * 10000000000).natAbs) ∧
    (∀ (a : Asset) (n : Nat),
      a.pow (.num (n : ℚ)) = .ok (a.powLoop n Asset.one) ∧
      a.powLoop (n + 1) Asset.one = (a.powLoop n Asset.one).mul a) ∧
    ((Asset.mul ⟨1234560000000⟩ ⟨1000001111100000⟩).toString true =
      ("12345613.71719 GRAEL").data) ∧
    (Asset.div ⟨1234560000000⟩ ⟨230000000000⟩ = .ok ⟨53676521739⟩ ∧
      Asset.toString ⟨53676521739⟩ true = ("5.36765 GRAEL").data) ∧
    (Asset.pow ⟨10002000000⟩ (.num ((1000 : Nat) : ℚ)) =
        .ok ⟨12213782788⟩ ∧
      Asset.toString ⟨12213782788⟩ true = ("1.22137 GRAEL").data) := by
  have hpow : ∀ (a : Asset) (n : Nat),
      a.pow (.num (n : ℚ)) = .ok (a.powLoop n Asset.one) := by
    intro a n
    simp only [Asset.pow, Rat.den_natCast, Rat.num_natCast, Int.natAbs_ofNat,
      ne_eq, not_true_eq_false, if_false]
  have key : ∀ P : Int,
      (Int.tdiv P 10000000000 * 10000000000).natAbs ≤ P.natAbs ∧
      P.natAbs - (Int.tdiv P 10000000000 * 10000000000).natAbs
        < 10000000000 := by
    intro P
    rw [Int.natAbs_mul, Int.natAbs_tdiv,
      show (10000000000 : Int).natAbs = 10000000000 from rfl]
    constructor
    · exact Nat.div_mul_le_self _ _
    · show P.natAbs - P.natAbs / 10000000000 * 10000000000 < 10000000000
      have h2 : P.natAbs % 10000000000 < 10000000000 :=
        Nat.mod_lt _ (by omega)
      have h3 := Nat.div_add_mod P.natAbs 10000000000
      omega
  have key2 : ∀ P q : Int, ((Int.tdiv P q) * q).natAbs ≤ P.natAbs := by
    intro P q
    rw [Int.natAbs_mul, Int.natAbs_tdiv]
    exact Nat.div_mul_le_self _ _
  refine ⟨?_, ?_, ?_, ?_, ?_, ?_, ⟨rfl, rfl⟩, ?_⟩
  · intro a b
    simp only [Asset.add, Asset.sub]
    congr 1
    omega
  · intro a b
    exact ⟨rfl, rfl⟩
  · intro a b
    exact ⟨rfl, (key (a.amount * b.amount)).1, (key (a.amount * b.amount)).2⟩
  · intro a b hb
    refine ⟨?_, key2 _ _⟩
    simp only [Asset.div, hb, if_false]
  · intro a n
    exact ⟨hpow a n, powLoop_succ_out a n Asset.one⟩
  · rfl
  · constructor
    · rw [hpow, show (1000 : Nat) = 250 + 750 by norm_num, powLoop_add,
        powChunk1, show (750 : Nat) = 250 + 500 by norm_num, powLoop_add,
        powChunk2, show (500 : Nat) = 250 + 250 by norm_num, powLoop_add,
        powChunk3, powChunk4]
    · rfl

/-- C3 witness: the amended theorem applied at concrete inputs, discharging
the nonzero-divisor hypothesis at 23.00000 GRAEL. -/
theorem asset_arithmetic_spec_witness :
    Asset.div ⟨1234560000000⟩ ⟨230000000000⟩ =
      .ok ⟨Int.tdiv ((1234560000000 : Int) * 10000000000) 230000000000⟩ := by
  have h := (asset_arithmetic_spec.2.2.2.1 ⟨1234560000000⟩ ⟨230000000000⟩
    (by decide)).1
  exact h

/-- C9: asset arithmetic raises exactly the stated errors and never coerces —
div fails with the divide-by-zero message precisely when the divisor amount
is zero and succeeds (with a finite value, never an infinity) otherwise;
pow fails with the stated TypeError messages for a non-numeric or fractional
exponent and succeeds on integer exponents. -/
theorem asset_arithmetic_errors :
    (∀ a b : Asset, b.amount = 0 → a.div b = .error ("divide by zero")) ∧
    (∀ a b : Asset, b.amount ≠ 0 → ∃ c, a.div b = .ok c) ∧
    (∀ a : Asset, a.pow .notNum = .error ("input must be of type number")) ∧
    (∀ (a : Asset) (q : ℚ), q.den ≠ 1 →
      a.pow (.num q) = .error ("input must be an integer")) ∧
    (∀ (a : Asset) (q : ℚ), q.den = 1 →
      a.pow (.num q) = .ok (a.powLoop q.num.natAbs Asset.one)) := by
  refine ⟨?_, ?_, ?_, ?_, ?_⟩
  · intro a b hb
    simp [Asset.div, hb]
  · intro a b hb
    exact ⟨⟨Int.tdiv (a.amount * 10000000000) b.amount⟩,
      by simp [Asset.div, hb]⟩
  · intro a
    rfl
  · intro a q hq
    simp [Asset.pow, hq]
  · intro a q hq
    simp [Asset.pow, hq]

/-- C9 witness: the theorem applied at 1.00000 GRAEL divided by zero and
raised to the fractional exponent 7/4. -/
theorem asset_arithmetic_errors_witness :
    Asset.div ⟨10000000000⟩ ⟨0⟩ = .error ("divide by zero") ∧
    Asset.pow ⟨10000000000⟩ (.num (mkRat 7 4)) =
      .error ("input must be an integer") ∧
    Asset.pow ⟨10000000000⟩ (.num (mkRat 3 1)) =
      .ok (Asset.powLoop ⟨10000000000⟩ (mkRat 3 1).num.natAbs Asset.one) :=
  ⟨asset_arithmetic_errors.1 ⟨10000000000⟩ ⟨0⟩ rfl,
   asset_arithmetic_errors.2.2.2.1 ⟨10000000000⟩ (mkRat 7 4) (by decide),
   asset_arithmetic_errors.2.2.2.2 ⟨10000000000⟩ (mkRat 3 1) (by decide)⟩

/-- C4: Asset.fromString applies its checks in the stated order with the
stated messages — wrong token count fails as invalid format; a syntactically
invalid numeral fails as amount must be a valid number; a magnitude beyond
the significant-digit ceiling fails as input too large, firing even without
a decimal point and before the decimal-point and precision checks (the
21-digit literal demonstrates the priority); a numeral without a literal dot
fails as invalid format; a fraction-digit count other than 5 fails as
invalid precision; a symbol other than the exact string GRAEL fails as
asset type must be GRAEL. -/
theorem fromString_check_order :
    (∀ s : List Char, (splitOnSpace s).length ≠ 2 →
      Asset.fromString s = .error ("invalid format")) ∧
    (∀ (s amt sym : List Char), splitOnSpace s = [amt, sym] →
      parseNumeral amt = none →
      Asset.fromString s = .error ("amount must be a valid number")) ∧
    (∀ (s amt sym : List Char) (p : NumParts), splitOnSpace s = [amt, sym] →
      parseNumeral amt = some p → 20 < sigDigitCount p →
      Asset.fromString s = .error ("input too large")) ∧
    (∀ (s amt sym : List Char) (p : NumParts), splitOnSpace s = [amt, sym] →
      parseNumeral amt = some p → sigDigitCount p ≤ 20 →
      p.fracPart = none →
      Asset.fromString s = .error ("invalid format")) ∧
    (∀ (s amt sym : List Char) (p : NumParts) (F : List Char),
      splitOnSpace s = [amt, sym] →
      parseNumeral amt = some p → sigDigitCount p ≤ 20 →
      p.fracPart = some F → F.length ≠ 5 →
      Asset.fromString s = .error ("invalid precision")) ∧
    (∀ (s amt sym : List Char) (p : NumParts) (F : List Char),
      splitOnSpace s = [amt, sym] →
      parseNumeral amt = some p → sigDigitCount p ≤ 20 →
      p.fracPart = some F → F.length = 5 → sym ≠ assetSymbol →
      Asset.fromString s = .error ("asset type must be GRAEL")) ∧
    (Asset.fromString (("123456789012345678901 GRAEL").data) =
        .error ("input too large") ∧
      ('.' ∈ ("123456789012345678901").data → False) ∧
      Asset.fromString (("1 GRAEL").data) = .error ("invalid format") ∧
      Asset.fromString (("1.0 GRAEL").data) = .error ("invalid precision") ∧
      Asset.fromString (("1.00000 grael").data) =
        .error ("asset type must be GRAEL") ∧
      Asset.fromString (("1b10.00000 GRAEL").data) =
        .error ("amount must be a valid number")) := by
  refine ⟨?_, ?_, ?_, ?_, ?_, ?_, rfl, by decide, rfl, rfl, rfl, rfl⟩
  · intro s h
    unfold Asset.fromString
    cases hsp : splitOnSpace s with
    | nil => rfl
    | cons a1 t1 =>
      cases t1 with
      | nil => rfl
      | cons a2 t2 =>
        cases t2 with
        | nil => exact absurd (by rw [hsp]; rfl) h
        | cons a3 t3 => rfl
  · intro s amt sym hsp hp
    rw [fromString_eq_two s amt sym hsp, hp]
  · intro s amt sym p hsp hp hbig
    rw [fromString_eq_two s amt sym hsp, hp]
    simp [hbig]
  · intro s amt sym p hsp hp hle hfrac
    rw [fromString_eq_two s amt sym hsp, hp]
    simp [Nat.not_lt.mpr hle, hfrac]
  · intro s amt sym p F hsp hp hle hfrac hlen
    rw [fromString_eq_two s amt sym hsp, hp]
    simp [Nat.not_lt.mpr hle, hfrac, hlen]
  · intro s amt sym p F hsp hp hle hfrac hlen hsym
    rw [fromString_eq_two s amt sym hsp, hp]
    simp [Nat.not_lt.mpr hle, hfrac, hlen, hsym]

/-- C4 witness: the ordered checks applied at the concrete rejected inputs of
the repository test suite. -/
theorem fromString_check_order_witness :
    Asset.fromString (("1.00000")).data = .error ("invalid format") ∧
    Asset.fromString (("0 GRAEL")).data = .error ("invalid format") ∧
    Asset.fromString (("1. GRAEL")).data = .error ("invalid precision") := by
  refine ⟨?_, ?_, ?_⟩
  · exact fromString_check_order.1 (("1.00000").data) (by decide)
  · exact fromString_check_order.2.2.2.1 (("0 GRAEL").data) (("0").data)
      (("GRAEL").data) ⟨false, ['0'], none⟩ (by decide) (by decide)
      (by decide) rfl
  · exact fromString_check_order.2.2.2.2.1 (("1. GRAEL").data) (("1.").data)
      (("GRAEL").data) ⟨false, ['1'], some []⟩ [] (by decide) (by decide)
      (by decide) rfl (by decide)

theorem ofByte_toByte (k : TxVerifyErrorKind) :
    TxVerifyErrorKind.ofByte k.toByte = some k := by
  cases k <;> rfl

/-- C6 counterexample: constructing a non-ScriptEval kind with a payload does
not throw — the constructor ignores the payload (it is not stored) and
assigns the fixed message. -/
theorem construct_ignores_spurious_meta :
    TxVerifyError.construct (fun _ => []) .arithmetic (some ⟨0, 0⟩) =
      .ok ⟨.arithmetic, none, ("arithmetic error").data⟩ := rfl

/-- C6 (amended): the constructor rejects exactly ScriptEval without a
ScriptEvalError payload; ScriptEval with a payload succeeds, stores it and
derives its message from the nested script-error kind; every other kind
succeeds with its fixed message, ignoring (not storing) any payload
argument. -/
theorem construct_spec :
    (∀ (sevMsg : Nat → List Char) (m : ScriptEvalError),
      TxVerifyError.construct sevMsg .scriptEval (some m) =
        .ok ⟨.scriptEval, some m, ("script eval: ").data ++ sevMsg m.kind⟩) ∧
    (∀ sevMsg : Nat → List Char,
      TxVerifyError.construct sevMsg .scriptEval none =
        .error ("invalid error type for ScriptEvalError")) ∧
    (∀ (sevMsg : Nat → List Char) (k : TxVerifyErrorKind),
      k ≠ .scriptEval → ∀ meta : Option ScriptEvalError,
      TxVerifyError.construct sevMsg k meta =
        .ok ⟨k, none, k.fixedMessage⟩) := by
  refine ⟨fun _ _ => rfl, fun _ => rfl, ?_⟩
  intro sevMsg k hk meta
  cases k <;> first
    | exact absurd rfl hk
    | rfl

/-- C6 witness: the amended constructor contract applied at TxDupe with a
spurious payload, discharging the kind hypothesis. -/
theorem construct_spec_witness :
    TxVerifyError.construct (fun _ => []) .txDupe (some ⟨1, 2⟩) =
      .ok ⟨.txDupe, none, ("tx dupe").data⟩ :=
  construct_spec.2.2 (fun _ => []) .txDupe (by decide) (some ⟨1, 2⟩)

/-- C5: every constructed, well-formed TxVerifyError round-trips through its
wire encoding — including the 4-byte offset and 1-byte nested kind of the
ScriptEval payload — and a kind byte outside 0x00-0x0a makes deserialize
fail rather than substitute a default kind. -/
theorem verify_error_roundtrip :
    (∀ (sevValid : Nat → Bool) (sevMsg : Nat → List Char)
      (kind : TxVerifyErrorKind) (meta : Option ScriptEvalError)
      (e : TxVerifyError) (r : List Nat),
      TxVerifyError.construct sevMsg kind meta = .ok e →
      e.okFor sevValid →
      TxVerifyError.deserialize sevValid sevMsg (e.serialize ++ r) =
        .ok (e, r)) ∧
    (∀ (sevValid : Nat → Bool) (sevMsg : Nat → List Char) (k : Nat)
      (r : List Nat), 10 < k → k < 256 →
      TxVerifyError.deserialize sevValid sevMsg (k :: r) =
        .error ("invalid tx error kind")) := by
  constructor
  · intro sevValid sevMsg kind meta e r hcon hok
    cases kind with
    | scriptEval =>
      cases meta with
      | none =>
        simp only [TxVerifyError.construct] at hcon
        simp at hcon
      | some m =>
        simp only [TxVerifyError.construct, Except.ok.injEq] at hcon
        subst hcon
        simp only [TxVerifyError.okFor] at hok
        obtain ⟨hvalid, hk256, hpos⟩ := hok
        show TxVerifyError.deserialize sevValid sevMsg
          ((writeUint8 (TxVerifyErrorKind.toByte .scriptEval) ++
            (writeUint32 m.position ++ writeUint8 m.kind)) ++ r) = _
        rw [List.append_assoc, List.append_assoc]
        show TxVerifyError.deserialize sevValid sevMsg
          (0 % 256 :: (writeUint32 m.position ++
            (writeUint8 m.kind ++ r))) = _
        unfold TxVerifyError.deserialize
        rw [show (0 % 256 : Nat) = 0 from rfl]
        rw [show readUint8 (0 :: (writeUint32 m.position ++
          (writeUint8 m.kind ++ r))) = .ok (0, writeUint32 m.position ++
          (writeUint8 m.kind ++ r)) from rfl]
        rw [exbind_ok]
        simp only [TxVerifyErrorKind.ofByte, if_pos rfl]
        rw [readUint32_write m.position hpos _, exbind_ok]
        rw [readUint8_write m.kind hk256 _, exbind_ok]
        rw [hvalid]
        simp only [Bool.not_true, Bool.false_eq_true, if_false,
          TxVerifyError.construct, exbind_ok]
        rfl
    | scriptHashMismatch =>
      simp only [TxVerifyError.construct, Except.ok.injEq] at hcon
      subst hcon
      rfl
    | scriptRetFalse =>
      simp only [TxVerifyError.construct, Except.ok.injEq] at hcon
      subst hcon
      rfl
    | arithmetic =>
      simp only [TxVerifyError.construct, Except.ok.injEq] at hcon
      subst hcon
      rfl
    | insufficientBalance =>
      simp only [TxVerifyError.construct, Except.ok.injEq] at hcon
      subst hcon
      rfl
    | invalidFeeAmount =>
      simp only [TxVerifyError.construct, Except.ok.injEq] at hcon
      subst hcon
      rfl
    | tooManySignatures =>
      simp only [TxVerifyError.construct, Except.ok.injEq] at hcon
      subst hcon
      rfl
    | txTooLarge =>
      simp only [TxVerifyError.construct, Except.ok.injEq] at hcon
      subst hcon
      rfl
    | txProhibited =>
      simp only [TxVerifyError.construct, Except.ok.injEq] at hcon
      subst hcon
      rfl
    | txExpired =>
      simp only [TxVerifyError.construct, Except.ok.injEq] at hcon
      subst hcon
      rfl
    | txDupe =>
      simp only [TxVerifyError.construct, Except.ok.injEq] at hcon
      subst hcon
      rfl
  · intro sevValid sevMsg k r hk hk256
    unfold TxVerifyError.deserialize
    rw [show readUint8 (k :: r) = .ok (k, r) from rfl, exbind_ok]
    have hofByte : TxVerifyErrorKind.ofByte k = none := by
      unfold TxVerifyErrorKind.ofByte
      interval_cases k <;> simp_all
    simp only [hofByte]

/-- C5 witness: the round trip applied to a concrete ScriptEval error with
offset 7 and nested kind 3 (under a concrete nested-kind enum of five
values), and the rejection applied at the out-of-range kind byte 0x0b. -/
theorem verify_error_roundtrip_witness :
    TxVerifyError.deserialize (fun k => decide (k < 5)) (fun _ => [])
      (TxVerifyError.serialize ⟨.scriptEval, some ⟨3, 7⟩,
        ("script eval: ").data⟩ ++ [9]) =
      .ok (⟨.scriptEval, some ⟨3, 7⟩, ("script eval: ").data⟩, [9]) ∧
    TxVerifyError.deserialize (fun k => decide (k < 5)) (fun _ => [])
      (11 :: [0, 0, 0, 7, 3]) = .error ("invalid tx error kind") := by
  constructor
  · exact verify_error_roundtrip.1 (fun k => decide (k < 5)) (fun _ => [])
      .scriptEval (some ⟨3, 7⟩) ⟨.scriptEval, some ⟨3, 7⟩,
        ("script eval: ").data⟩ [9] rfl ⟨rfl, by decide, by decide⟩
  · exact verify_error_roundtrip.2 (fun k => decide (k < 5)) (fun _ => [])
      11 [0, 0, 0, 7, 3] (by decide) (by decide)

/-- C2: the unsigned serialization of a transaction is one and the same byte
string no matter what the signature list holds; signing always re-derives
the unsigned form fresh (the signed bytes equal the serialization of the
transaction with an empty signature list), signs exactly those bytes, and
returns the resulting pair, appending it to the signature list exactly when
asked to. -/
theorem unsigned_form_independent_of_sigs :
    (∀ (t : TxV0) (s1 s2 : List SigPair),
      TxVariant.serialize ⟨t.timestamp, t.fee, s1, t.payload⟩ false =
        TxVariant.serialize ⟨t.timestamp, t.fee, s2, t.payload⟩ false) ∧
    (∀ (signFn : List Nat → SigPair) (t : TxV0) (append : Bool),
      (TxVariant.sign signFn t append).1 =
        signFn (TxVariant.serialize ⟨t.timestamp, t.fee, [], t.payload⟩
          false)) ∧
    (∀ (signFn : List Nat → SigPair) (t : TxV0),
      (TxVariant.sign signFn t true).2 =
        ⟨t.timestamp, t.fee,
          t.signaturePairs ++ [(TxVariant.sign signFn t true).1],
          t.payload⟩ ∧
      (TxVariant.sign signFn t false).2 = t) := by
  refine ⟨fun t s1 s2 => rfl, fun signFn t append => rfl, fun signFn t => ⟨rfl, rfl⟩⟩

/-- C8: a TxV0 is constructible only from an unsigned-flagged timestamp
(signed Longs throw), and deserialization is a fatal error on an
unrecognized envelope version tag, on an unrecognized transaction type tag,
and on a timestamp with its sign bit set — never yielding a transaction. -/
theorem timestamp_and_tag_rejection :
    (∀ (data : TxData) (payload : TxPayload),
      data.timestamp.unsigned = false →
      TxV0.create data payload =
        .error ("timestamp must be an unsigned long")) ∧
    (∀ (data : TxData) (payload : TxPayload),
      data.timestamp.unsigned = true →
      TxV0.create data payload =
        .ok ⟨data.timestamp, data.fee, data.signaturePairs, payload⟩) ∧
    (∀ (v : Nat) (r : List Nat), v ≠ 0 → v < 65536 →
      TxVariant.deserialize (writeUint16 v ++ r) =
        .error ("unknown tx version")) ∧
    (∀ (ty : Nat) (r : List Nat), 3 < ty → ty < 256 →
      TxVariant.deserialize (writeUint16 0 ++ (writeUint8 ty ++ r)) =
        .error ("unknown tx type deserializing header")) ∧
    (∀ (ts : Nat) (r : List Nat), 9223372036854775808 ≤ ts →
      ts < 18446744073709551616 →
      TxVariant.deserialize
          (writeUint16 0 ++ (writeUint8 0 ++ (writeUint64 ts ++ r))) =
        .error ("timestamp sign bit set")) := by
  refine ⟨?_, ?_, ?_, ?_, ?_⟩
  · intro data payload h
    simp [TxV0.create, h]
  · intro data payload h
    simp [TxV0.create, h]
  · intro v r hne hv
    unfold TxVariant.deserialize
    rw [readUint16_write v hv, exbind_ok]
    simp [hne]
  · intro ty r hty hty256
    unfold TxVariant.deserialize
    rw [readUint16_write 0 (by omega), exbind_ok]
    simp only [if_pos rfl]
    unfold TxV0.deserialize TxV0.deserializeHeader
    rw [readUint8_write ty hty256, exbind_ok]
    simp [hty, exbind_err]
  · intro ts r hsign hts
    unfold TxVariant.deserialize
    rw [readUint16_write 0 (by omega), exbind_ok]
    simp only [if_pos rfl]
    unfold TxV0.deserialize TxV0.deserializeHeader
    rw [readUint8_write 0 (by omega), exbind_ok]
    simp only [show ¬ (3 < 0) by omega, if_false]
    rw [readUint64_write ts hts, exbind_ok]
    simp [hsign, exbind_err]

/-- C8 witness: rejection at concrete inputs — a signed-flagged Long of value
5, version tag 1, type tag 9, and the timestamp 2^63. -/
theorem timestamp_and_tag_rejection_witness :
    TxV0.create ⟨⟨5, false⟩, ⟨0⟩, []⟩ (.reward [] ⟨0⟩) =
      .error ("timestamp must be an unsigned long") ∧
    TxVariant.deserialize (writeUint16 1 ++ []) =
      .error ("unknown tx version") ∧
    TxVariant.deserialize (writeUint16 0 ++ (writeUint8 9 ++ [])) =
      .error ("unknown tx type deserializing header") ∧
    TxVariant.deserialize (writeUint16 0 ++ (writeUint8 0 ++
        (writeUint64 9223372036854775808 ++ []))) =
      .error ("timestamp sign bit set") :=
  ⟨timestamp_and_tag_rejection.1 ⟨⟨5, false⟩, ⟨0⟩, []⟩ (.reward [] ⟨0⟩) rfl,
   timestamp_and_tag_rejection.2.2.1 1 [] (by decide) (by decide),
   timestamp_and_tag_rejection.2.2.2.1 9 [] (by decide) (by decide),
   timestamp_and_tag_rejection.2.2.2.2 9223372036854775808 [] (by decide)
     (by decide)⟩

/-- C1 counterexample: a constructible transaction (well-formed, 0 to 8
signatures, timestamp flagged unsigned) whose 64-bit timestamp has the sign
bit set serializes fine but is rejected by deserialization, so the
round trip fails for it. -/
theorem roundtrip_fails_at_sign_bit :
    TxV0.ok ⟨⟨9223372036854775808, true⟩, ⟨0⟩, [],
      .reward (List.replicate 32 0) ⟨0⟩⟩ = true ∧
    TxVariant.deserialize (TxVariant.serialize
      ⟨⟨9223372036854775808, true⟩, ⟨0⟩, [],
        .reward (List.replicate 32 0) ⟨0⟩⟩ true) =
      .error ("timestamp sign bit set") := by
  exact ⟨by decide, rfl⟩

/-- C1 (amended): for every well-formed transaction with 0 to 8 signature
pairs whose timestamp is below 2^63 (the sign bit clear), deserializing the
bytes produced by serializing with signatures included yields the
transaction back, field for field, signature order included. -/
theorem tx_roundtrip (t : TxV0) (hok : t.ok = true)
    (hts : t.timestamp.bits < 9223372036854775808) :
    TxVariant.deserialize (TxVariant.serialize t true) = .ok (t, []) := by
  have h := serialize_roundtrip t [] hok hts
  simpa using h

/-- C1 witness: the round trip at a concrete transfer transaction carrying
one signature pair. -/
theorem tx_roundtrip_witness :
    TxVariant.deserialize (TxVariant.serialize
      ⟨⟨1700000000000, true⟩, ⟨500000000000⟩,
        [⟨List.replicate 32 1, List.replicate 64 2⟩],
        .transfer (List.replicate 32 3) (List.replicate 32 4) [7, 8]
          ⟨2500000000⟩ [9]⟩ true) =
      .ok (⟨⟨1700000000000, true⟩, ⟨500000000000⟩,
        [⟨List.replicate 32 1, List.replicate 64 2⟩],
        .transfer (List.replicate 32 3) (List.replicate 32 4) [7, 8]
          ⟨2500000000⟩ [9]⟩, []) :=
  tx_roundtrip _ (by decide) (by decide)

/-- C10 counterexample: TxVariant.deserialize accepts a byte string carrying
one trailing byte beyond a valid encoding (it consumes only a prefix and
ignores the rest), and re-serializing the resulting transaction does not
reproduce that byte string. -/
theorem reserialize_drops_trailing_bytes :
    TxVariant.deserialize (TxVariant.serialize
        ⟨⟨0, true⟩, ⟨0⟩, [], .reward (List.replicate 32 0) ⟨0⟩⟩ true ++ [0]) =
      .ok (⟨⟨0, true⟩, ⟨0⟩, [], .reward (List.replicate 32 0) ⟨0⟩⟩, [0]) ∧
    TxVariant.serialize
        ⟨⟨0, true⟩, ⟨0⟩, [], .reward (List.replicate 32 0) ⟨0⟩⟩ true ≠
      TxVariant.serialize
        ⟨⟨0, true⟩, ⟨0⟩, [], .reward (List.replicate 32 0) ⟨0⟩⟩ true ++ [0] := by
  exact ⟨rfl, by decide⟩

/-- C10 (amended): the encoding is canonical in the byte direction over the
consumed prefix — whenever TxVariant.deserialize accepts a byte string, the
canonical re-serialization of the result followed by the unconsumed
remainder reproduces the byte string exactly; in particular a byte string
deserialization consumes entirely is reproduced byte for byte. -/
theorem deserialize_then_serialize (b : List Nat) (t : TxV0)
    (rest : List Nat) (hok : bytesOk b = true)
    (h : TxVariant.deserialize b = .ok (t, rest)) :
    TxVariant.serialize t true ++ rest = b ∧
    (rest = [] → TxVariant.serialize t true = b) := by
  have hmain := deserialize_inv b t rest hok h
  refine ⟨hmain, ?_⟩
  intro hrest
  rw [hrest] at hmain
  simpa using hmain

/-- C10 witness: the amended canonicity applied to the concrete bytes of a
reward transaction, consumed entirely. -/
theorem deserialize_then_serialize_witness :
    TxVariant.serialize
        ⟨⟨0, true⟩, ⟨0⟩, [], .reward (List.replicate 32 0) ⟨0⟩⟩ true ++ [] =
      TxVariant.serialize
        ⟨⟨0, true⟩, ⟨0⟩, [], .reward (List.replicate 32 0) ⟨0⟩⟩ true :=
  (deserialize_then_serialize
    (TxVariant.serialize
      ⟨⟨0, true⟩, ⟨0⟩, [], .reward (List.replicate 32 0) ⟨0⟩⟩ true)
    ⟨⟨0, true⟩, ⟨0⟩, [], .reward (List.replicate 32 0) ⟨0⟩⟩ []
    (by decide) rfl).1

/-- C7 counterexample: formatting does not return "the same digits" — the
accepted input 0001.00000 GRAEL parses to one whole unit but formats back
as 1.00000 GRAEL with the redundant leading zeros removed, so the formatted
string differs from the input. -/
theorem toString_strips_leading_zeros :
    Asset.fromString (("0001.00000 GRAEL").data) = .ok ⟨10000000000⟩ ∧
    Asset.toString ⟨10000000000⟩ true = ("1.00000 GRAEL").data ∧
    Asset.toString ⟨10000000000⟩ true ≠ ("0001.00000 GRAEL").data :=
  ⟨rfl, rfl, by decide⟩

/-- C7 (amended): for every string accepted by Asset.fromString, formatting
the parsed value returns the normalization of the input — redundant leading
integer zeros removed (a single leading 0 supplied when no integer digit
remains), the same 5 fraction digits, the minus sign kept exactly on
negative nonzero values, and the GRAEL suffix; in particular
-0.00000 GRAEL and 0.00000 GRAEL parse to the same (zero) value and both
format to 0.00000 GRAEL. -/
theorem format_parse_normalize :
    (∀ (s : List Char) (a : Asset), Asset.fromString s = .ok a →
      a.toString true = normalizeAsset s) ∧
    Asset.fromString (("-0.00000 GRAEL").data) = .ok ⟨0⟩ ∧
    Asset.fromString (("0.00000 GRAEL").data) = .ok ⟨0⟩ ∧
    Asset.toString ⟨0⟩ true = ("0.00000 GRAEL").data := by
  refine ⟨?_, rfl, rfl, rfl⟩
  intro s a h
  cases hsp : splitOnSpace s with
  | nil =>
    have hc : Asset.fromString s = .error ("invalid format") := by
      unfold Asset.fromString
      rw [hsp]
    rw [hc] at h
    exact Except.noConfusion h
  | cons amt tl1 =>
    cases tl1 with
    | nil =>
      have hc : Asset.fromString s = .error ("invalid format") := by
        unfold Asset.fromString
        rw [hsp]
      rw [hc] at h
      exact Except.noConfusion h
    | cons sym tl2 =>
      cases tl2 with
      | cons x tl3 =>
        have hc : Asset.fromString s = .error ("invalid format") := by
          unfold Asset.fromString
          rw [hsp]
        rw [hc] at h
        exact Except.noConfusion h
      | nil =>
        cases hp : parseNumeral amt with
        | none =>
          have hc : Asset.fromString s =
              .error ("amount must be a valid number") := by
            rw [fromString_eq_two s amt sym hsp, hp]
          rw [hc] at h
          exact Except.noConfusion h
        | some p =>
          rw [fromString_eq_parsed s amt sym p hsp hp] at h
          by_cases hbig : 20 < sigDigitCount p
          · rw [if_pos hbig] at h
            exact Except.noConfusion h
          rw [if_neg hbig] at h
          cases hF : p.fracPart with
          | none =>
            rw [hF] at h
            exact Except.noConfusion h
          | some F =>
            rw [hF] at h
            replace h : (if F.length ≠ 5 then
                (Except.error ("invalid precision") : Except String Asset)
              else if sym ≠ assetSymbol then
                .error ("asset type must be GRAEL")
              else
                .ok ⟨(if p.neg then
                    -(natOfBE 10 (digitVals (p.intPart ++ F)) : Int)
                  else (natOfBE 10 (digitVals (p.intPart ++ F)) : Int)) *
                  100000⟩) = .ok a := h
            by_cases hlen : F.length ≠ 5
            · rw [if_pos hlen] at h
              exact Except.noConfusion h
            rw [if_neg hlen] at h
            by_cases hsym : sym ≠ assetSymbol
            · rw [if_pos hsym] at h
              exact Except.noConfusion h
            rw [if_neg hsym] at h
            simp only [Except.ok.injEq] at h
            have hlen5 : F.length = 5 := Decidable.not_not.mp hlen
            obtain ⟨hIdig, hFdig0⟩ := parseNumeral_digits amt p hp
            have hFdig : ∀ c ∈ F, isDigitChar c = true := hFdig0 F hF
            rw [normalizeAsset_eq s amt sym p hsp hp]
            subst h
            rw [toString_normalize_core p.intPart F hIdig hFdig hlen5 p.neg,
              normalizeAmount_eq p F hF]

/-- C7 witness: the amended universal statement applied at the concrete
accepted input 0.12345 GRAEL, its acceptance discharged by evaluation. -/
theorem format_parse_normalize_witness :
    Asset.toString ⟨12345 * 100000⟩ true =
      normalizeAsset (("0.12345 GRAEL").data) :=
  format_parse_normalize.1 (("0.12345 GRAEL").data) ⟨12345 * 100000⟩ rfl

end GODcoin
